import Mathlib

/-!
# Bit-range accessor `bitfield<base_type, first_bit, last_bit>`

Shallow embedding of `include/bitfield.hpp`.

* `W` is the bit width of `value_type` (`CHAR_BIT * sizeof(base_type)`); a value of the type
  is a natural number below `2 ^ W` and every arithmetic result is truncated with an explicit
  `% 2 ^ W`. For `uint32_t` (the storage of `codegen-tests/testbed.cpp`) and `uint64_t` this
  is the arithmetic of the type itself. Operands of a narrower type are promoted to `int` and
  the result is converted back to `value_type`, which gives the same word; an overflow of the
  promoted `int` is not tracked.
* `first_bit`, `last_bit` are the template arguments; the static assertions
  `first_bit >= 0`, `first_bit <= last_bit`, `last_bit < W` are hypotheses of the theorems.
* The only run-time state of an instance is the word `_raw`; an operator is a function from
  the old `_raw` (and its operand) to the new `_raw` (and its return value).
* Division and modulo by zero have no result: `_div` and `_mod` return `Option`.
* Shifts are total: `x << n` is `x * 2 ^ n` truncated to `W` bits and `x >> n` is
  `x / 2 ^ n`. They are the shifts of the source for counts `n < W`; statements about the
  word written by `<<=` and `>>=` carry that condition. The definitions named `..._checked`
  return `none` where the language gives the shift no result: a count that is not below the
  width of the promoted left operand (`int`, 32 bits, for a narrower `value_type`).
* The volatile overloads act on `Storage`, a stand-in for `_raw` that logs every load and
  store.
* `testbed` holds the draft class of `codegen-tests/testbed.cpp`.
-/

namespace bitfield

/-! ## Arithmetic of `value_type` -/

/-- Left shift `x << n` of `value_type`: the product `x * 2 ^ n` truncated to `W` bits. This
is the shift of the source for counts `n < W`; for larger counts the same formula is kept
(every bit is shifted out), which the source does not guarantee: see `shl_checked`. -/
def shl (W x n : Nat) : Nat := (x <<< n) % 2 ^ W

/-- Right shift `x >> n` of `value_type`: `x / 2 ^ n`. This is the shift of the source for
counts `n < W`; see `shr_checked` for larger counts. -/
def shr (x n : Nat) : Nat := x >>> n

/-- Bitwise complement `~x` of a `W`-bit value. -/
def bnot (W x : Nat) : Nat := 2 ^ W - 1 - x

/-- Sum `x + y` of `value_type`, wrapping at `2 ^ W`. -/
def add (W x y : Nat) : Nat := (x + y) % 2 ^ W

/-- Difference `x - y` of `value_type`, wrapping at `2 ^ W`. -/
def sub (W x y : Nat) : Nat := (x + (2 ^ W - y % 2 ^ W)) % 2 ^ W

/-- Product `x * y` of `value_type`, wrapping at `2 ^ W`. -/
def mul (W x y : Nat) : Nat := (x * y) % 2 ^ W

/-! ## Compile-time constants (bitfield.hpp lines 38-39) -/

/-- Constant `NUM_BITS = last_bit - first_bit + 1`, stored in `value_type`. -/
def NUM_BITS (W fb lb : Nat) : Nat := (lb - fb + 1) % 2 ^ W

/-- Constant `MASK = (static_cast<value_type>(1) << NUM_BITS) - 1`. -/
def MASK (W fb lb : Nat) : Nat := sub W (shl W 1 (NUM_BITS W fb lb)) 1

/-! ## Private static helpers (bitfield.hpp lines 217-259) -/

/-- Source: `(lhs & ~(MASK << first_bit)) | ((rhs & MASK) << first_bit)`. -/
def _assign (W fb lb lhs rhs : Nat) : Nat :=
  (lhs &&& bnot W (shl W (MASK W fb lb) fb)) ||| shl W (rhs &&& MASK W fb lb) fb

/-- Source: `(lhs & ~(MASK << first_bit)) | ((lhs + (rhs << first_bit)) & (MASK << first_bit))`. -/
def _add (W fb lb lhs rhs : Nat) : Nat :=
  (lhs &&& bnot W (shl W (MASK W fb lb) fb))
    ||| (add W lhs (shl W rhs fb) &&& shl W (MASK W fb lb) fb)

/-- Source: `(lhs & ~(MASK << first_bit)) | ((lhs - (rhs << first_bit)) & (MASK << first_bit))`. -/
def _sub (W fb lb lhs rhs : Nat) : Nat :=
  (lhs &&& bnot W (shl W (MASK W fb lb) fb))
    ||| (sub W lhs (shl W rhs fb) &&& shl W (MASK W fb lb) fb)

/-- Source:
`(lhs & ~(MASK << first_bit)) | (((lhs & (MASK << first_bit)) * rhs) & (MASK << first_bit))`. -/
def _mul (W fb lb lhs rhs : Nat) : Nat :=
  (lhs &&& bnot W (shl W (MASK W fb lb) fb))
    ||| (mul W (lhs &&& shl W (MASK W fb lb) fb) rhs &&& shl W (MASK W fb lb) fb)

/-- Source:
`(lhs & ~(MASK << first_bit)) | (((lhs & (MASK << first_bit)) / rhs) & (MASK << first_bit))`;
no result when `rhs` is zero. -/
def _div (W fb lb lhs rhs : Nat) : Option Nat :=
  if rhs = 0 then none
  else some ((lhs &&& bnot W (shl W (MASK W fb lb) fb))
    ||| (((lhs &&& shl W (MASK W fb lb) fb) / rhs) &&& shl W (MASK W fb lb) fb))

/-- Source:
`(lhs & ~(MASK << first_bit)) | ((((lhs >> first_bit) & MASK) % rhs) << first_bit)`;
no result when `rhs` is zero. -/
def _mod (W fb lb lhs rhs : Nat) : Option Nat :=
  if rhs = 0 then none
  else some ((lhs &&& bnot W (shl W (MASK W fb lb) fb))
    ||| shl W (((shr lhs fb) &&& MASK W fb lb) % rhs) fb)

/-- Source: `lhs & (~(MASK << first_bit) | (rhs << first_bit))`. -/
def _and (W fb lb lhs rhs : Nat) : Nat :=
  lhs &&& (bnot W (shl W (MASK W fb lb) fb) ||| shl W rhs fb)

/-- Source: `lhs | ((rhs & MASK) << first_bit)`. -/
def _or (W fb lb lhs rhs : Nat) : Nat :=
  lhs ||| shl W (rhs &&& MASK W fb lb) fb

/-- Source: `lhs ^ ((rhs & MASK) << first_bit)`. -/
def _xor (W fb lb lhs rhs : Nat) : Nat :=
  lhs ^^^ shl W (rhs &&& MASK W fb lb) fb

/-- Source:
`(lhs & ~(MASK << first_bit)) | (((lhs & (MASK << first_bit)) << rhs) & (MASK << first_bit))`.
The shift by `rhs` is the total `shl`: the word of the source for `rhs < W` only
(`_shl_checked` has the condition). -/
def _shl (W fb lb lhs rhs : Nat) : Nat :=
  (lhs &&& bnot W (shl W (MASK W fb lb) fb))
    ||| (shl W (lhs &&& shl W (MASK W fb lb) fb) rhs &&& shl W (MASK W fb lb) fb)

/-- Source:
`(lhs & ~(MASK << first_bit)) | (((lhs & (MASK << first_bit)) >> rhs) & (MASK << first_bit))`.
The shift by `rhs` is the total `shr`: the word of the source for `rhs < W` only
(`_shr_checked` has the condition). -/
def _shr (W fb lb lhs rhs : Nat) : Nat :=
  (lhs &&& bnot W (shl W (MASK W fb lb) fb))
    ||| (shr (lhs &&& shl W (MASK W fb lb) fb) rhs &&& shl W (MASK W fb lb) fb)

/-! ## Public operators (bitfield.hpp lines 42-125); the argument `raw` is `_raw` before the
call, the result is `_raw` after it. -/

/-- Conversion `operator value_type()`: `(_raw >> first_bit) & MASK`. -/
def operator_value_type (W fb lb raw : Nat) : Nat := shr raw fb &&& MASK W fb lb

/-- Assignment `operator=`: `_raw = _assign(_raw, new_value)`. -/
def operator_assign (W fb lb raw new_value : Nat) : Nat := _assign W fb lb raw new_value

/-- Compound `operator+=`. -/
def operator_add_assign (W fb lb raw rhs : Nat) : Nat := _add W fb lb raw rhs

/-- Compound `operator-=`. -/
def operator_sub_assign (W fb lb raw rhs : Nat) : Nat := _sub W fb lb raw rhs

/-- Compound `operator*=`. -/
def operator_mul_assign (W fb lb raw rhs : Nat) : Nat := _mul W fb lb raw rhs

/-- Compound `operator/=`. -/
def operator_div_assign (W fb lb raw rhs : Nat) : Option Nat := _div W fb lb raw rhs

/-- Compound `operator%=`. -/
def operator_mod_assign (W fb lb raw rhs : Nat) : Option Nat := _mod W fb lb raw rhs

/-- Compound `operator&=`. -/
def operator_and_assign (W fb lb raw rhs : Nat) : Nat := _and W fb lb raw rhs

/-- Compound `operator|=`. -/
def operator_or_assign (W fb lb raw rhs : Nat) : Nat := _or W fb lb raw rhs

/-- Compound `operator^=`. -/
def operator_xor_assign (W fb lb raw rhs : Nat) : Nat := _xor W fb lb raw rhs

/-- Compound `operator<<=`. -/
def operator_shl_assign (W fb lb raw rhs : Nat) : Nat := _shl W fb lb raw rhs

/-- Compound `operator>>=`. -/
def operator_shr_assign (W fb lb raw rhs : Nat) : Nat := _shr W fb lb raw rhs

/-- Pre-increment `operator++()`: returns `(val, new _raw)` with
`val = ((tmp >> first_bit) + 1) & MASK` and
`_raw = (tmp & ~(MASK << first_bit)) | (val << first_bit)`. -/
def operator_pre_inc (W fb lb raw : Nat) : Nat × Nat :=
  let tmp := raw
  let val := add W (shr tmp fb) 1 &&& MASK W fb lb
  (val, (tmp &&& bnot W (shl W (MASK W fb lb) fb)) ||| shl W val fb)

/-- Post-increment `operator++(int)`: `_raw = _add(tmp, 1)`, returns
`(tmp >> first_bit) & MASK`. -/
def operator_post_inc (W fb lb raw : Nat) : Nat × Nat :=
  let tmp := raw
  (shr tmp fb &&& MASK W fb lb, _add W fb lb tmp 1)

/-- Pre-decrement `operator--()`: `val = ((tmp >> first_bit) - 1) & MASK`,
`_raw = _assign(tmp, val)`, returns `val`. -/
def operator_pre_dec (W fb lb raw : Nat) : Nat × Nat :=
  let tmp := raw
  let val := sub W (shr tmp fb) 1 &&& MASK W fb lb
  (val, _assign W fb lb tmp val)

/-- Post-decrement `operator--(int)`: `_raw = _sub(tmp, 1)`, returns
`(tmp >> first_bit) & MASK`. -/
def operator_post_dec (W fb lb raw : Nat) : Nat × Nat :=
  let tmp := raw
  (shr tmp fb &&& MASK W fb lb, _sub W fb lb tmp 1)

/-! ## The fifteen mutating operators as one family -/

/-- Names of the fifteen mutating operators of the class. -/
inductive MutOp where
  | assign | add_assign | sub_assign | mul_assign | div_assign | mod_assign
  | and_assign | or_assign | xor_assign | shl_assign | shr_assign
  | pre_inc | post_inc | pre_dec | post_dec
  deriving DecidableEq

/-- The word written to `_raw` by a mutating operator applied to `raw` with operand `rhs`
(`++` and `--` take no operand); `none` when the operator has no result. -/
def MutOp.run (W fb lb : Nat) (op : MutOp) (raw rhs : Nat) : Option Nat :=
  match op with
  | .assign => some (operator_assign W fb lb raw rhs)
  | .add_assign => some (operator_add_assign W fb lb raw rhs)
  | .sub_assign => some (operator_sub_assign W fb lb raw rhs)
  | .mul_assign => some (operator_mul_assign W fb lb raw rhs)
  | .div_assign => operator_div_assign W fb lb raw rhs
  | .mod_assign => operator_mod_assign W fb lb raw rhs
  | .and_assign => some (operator_and_assign W fb lb raw rhs)
  | .or_assign => some (operator_or_assign W fb lb raw rhs)
  | .xor_assign => some (operator_xor_assign W fb lb raw rhs)
  | .shl_assign => some (operator_shl_assign W fb lb raw rhs)
  | .shr_assign => some (operator_shr_assign W fb lb raw rhs)
  | .pre_inc => some (operator_pre_inc W fb lb raw).2
  | .post_inc => some (operator_post_inc W fb lb raw).2
  | .pre_dec => some (operator_pre_dec W fb lb raw).2
  | .post_dec => some (operator_post_dec W fb lb raw).2

/-! ## Predicates used by the statements -/

/-- Frame property of one update: the written word is a `W`-bit word that agrees with the old
one under `~(MASK << first_bit)` and at every bit position outside the window. -/
def Isolated (W fb lb raw raw' : Nat) : Prop :=
  raw' < 2 ^ W ∧
  raw' &&& bnot W (shl W (MASK W fb lb) fb) = raw &&& bnot W (shl W (MASK W fb lb) fb) ∧
  ∀ i, (i < fb ∨ lb < i) → raw'.testBit i = raw.testBit i


/-- Value returned by a mutating operator applied to `raw`: the `value_type` returned by
`++` and `--`; `none` for the operators that return `*this`. -/
def MutOp.returned (W fb lb : Nat) (op : MutOp) (raw : Nat) : Option Nat :=
  match op with
  | .pre_inc => some (operator_pre_inc W fb lb raw).1
  | .post_inc => some (operator_post_inc W fb lb raw).1
  | .pre_dec => some (operator_pre_dec W fb lb raw).1
  | .post_dec => some (operator_post_dec W fb lb raw).1
  | _ => none

/-! ## Storage stand-in that records every access to `_raw` -/

/-- One access to the storage word `_raw`: a load that saw `v`, or a store of `v`. -/
inductive Access where
  | load (v : Nat)
  | store (v : Nat)
  deriving DecidableEq

/-- Storage stand-in: the current word and the log of the accesses made so far. -/
structure Storage where
  raw : Nat
  log : List Access
  deriving DecidableEq

/-- Reading `_raw` through a volatile object: one load. -/
def Storage.load (s : Storage) : Nat × Storage :=
  (s.raw, Storage.mk s.raw (s.log ++ [Access.load s.raw]))

/-- Writing `_raw` through a volatile object: one store. -/
def Storage.store (s : Storage) (v : Nat) : Storage :=
  Storage.mk v (s.log ++ [Access.store v])

/-! ## Volatile overloads (bitfield.hpp lines 131-214) over the storage stand-in

Each occurrence of `_raw` that is read is a `Storage.load`, each assignment to `_raw` is a
`Storage.store`. An operator whose helper has no result (`/= 0`, `%= 0`) stops after the load:
`Except.error` carries the storage at that point. -/

/-- Volatile conversion `operator value_type() const volatile`:
`return (_raw >> first_bit) & MASK;`. -/
def volatile_operator_value_type (W fb lb : Nat) (s : Storage) : Nat × Storage :=
  let (raw, s1) := s.load
  (shr raw fb &&& MASK W fb lb, s1)

/-- Volatile `operator=`: `_raw = _assign(_raw, new_value);`. -/
def volatile_operator_assign (W fb lb : Nat) (s : Storage) (new_value : Nat) : Storage :=
  let (raw, s1) := s.load
  s1.store (_assign W fb lb raw new_value)

/-- Volatile `operator+=`: `_raw = _add(_raw, rhs);`. -/
def volatile_operator_add_assign (W fb lb : Nat) (s : Storage) (rhs : Nat) : Storage :=
  let (raw, s1) := s.load
  s1.store (_add W fb lb raw rhs)

/-- Volatile `operator-=`: `_raw = _sub(_raw, rhs);`. -/
def volatile_operator_sub_assign (W fb lb : Nat) (s : Storage) (rhs : Nat) : Storage :=
  let (raw, s1) := s.load
  s1.store (_sub W fb lb raw rhs)

/-- Volatile `operator*=`: `_raw = _mul(_raw, rhs);`. -/
def volatile_operator_mul_assign (W fb lb : Nat) (s : Storage) (rhs : Nat) : Storage :=
  let (raw, s1) := s.load
  s1.store (_mul W fb lb raw rhs)

/-- Volatile `operator/=`: `_raw = _div(_raw, rhs);`. -/
def volatile_operator_div_assign (W fb lb : Nat) (s : Storage) (rhs : Nat) :
    Except Storage Storage :=
  let (raw, s1) := s.load
  match _div W fb lb raw rhs with
  | some v => Except.ok (s1.store v)
  | none => Except.error s1

/-- Volatile `operator%=`: `_raw = _mod(_raw, rhs);`. -/
def volatile_operator_mod_assign (W fb lb : Nat) (s : Storage) (rhs : Nat) :
    Except Storage Storage :=
  let (raw, s1) := s.load
  match _mod W fb lb raw rhs with
  | some v => Except.ok (s1.store v)
  | none => Except.error s1

/-- Volatile `operator&=`: `_raw = _and(_raw, rhs);`. -/
def volatile_operator_and_assign (W fb lb : Nat) (s : Storage) (rhs : Nat) : Storage :=
  let (raw, s1) := s.load
  s1.store (_and W fb lb raw rhs)

/-- Volatile `operator|=`: `_raw = _or(_raw, rhs);`. -/
def volatile_operator_or_assign (W fb lb : Nat) (s : Storage) (rhs : Nat) : Storage :=
  let (raw, s1) := s.load
  s1.store (_or W fb lb raw rhs)

/-- Volatile `operator^=`: `_raw = _xor(_raw, rhs);`. -/
def volatile_operator_xor_assign (W fb lb : Nat) (s : Storage) (rhs : Nat) : Storage :=
  let (raw, s1) := s.load
  s1.store (_xor W fb lb raw rhs)

/-- Volatile `operator<<=`: `_raw = _shl(_raw, rhs);`. -/
def volatile_operator_shl_assign (W fb lb : Nat) (s : Storage) (rhs : Nat) : Storage :=
  let (raw, s1) := s.load
  s1.store (_shl W fb lb raw rhs)

/-- Volatile `operator>>=`: `_raw = _shr(_raw, rhs);`. -/
def volatile_operator_shr_assign (W fb lb : Nat) (s : Storage) (rhs : Nat) : Storage :=
  let (raw, s1) := s.load
  s1.store (_shr W fb lb raw rhs)

/-- Volatile pre-increment: `tmp = _raw; val = ((tmp >> first_bit) + 1) & MASK;
_raw = _assign(tmp, val); return val;`. -/
def volatile_operator_pre_inc (W fb lb : Nat) (s : Storage) : Nat × Storage :=
  let (tmp, s1) := s.load
  let val := add W (shr tmp fb) 1 &&& MASK W fb lb
  (val, s1.store (_assign W fb lb tmp val))

/-- Volatile post-increment: `tmp = _raw; _raw = _add(tmp, 1);
return (tmp >> first_bit) & MASK;`. -/
def volatile_operator_post_inc (W fb lb : Nat) (s : Storage) : Nat × Storage :=
  let (tmp, s1) := s.load
  (shr tmp fb &&& MASK W fb lb, s1.store (_add W fb lb tmp 1))

/-- Volatile pre-decrement: `tmp = _raw; val = ((tmp >> first_bit) - 1) & MASK;
_raw = _assign(tmp, val); return val;`. -/
def volatile_operator_pre_dec (W fb lb : Nat) (s : Storage) : Nat × Storage :=
  let (tmp, s1) := s.load
  let val := sub W (shr tmp fb) 1 &&& MASK W fb lb
  (val, s1.store (_assign W fb lb tmp val))

/-- Volatile post-decrement: `tmp = _raw; _raw = _sub(tmp, 1);
return (tmp >> first_bit) & MASK;`. -/
def volatile_operator_post_dec (W fb lb : Nat) (s : Storage) : Nat × Storage :=
  let (tmp, s1) := s.load
  (shr tmp fb &&& MASK W fb lb, s1.store (_sub W fb lb tmp 1))

/-- The volatile overload of a mutating operator: the storage after the call and the returned
`value_type` (`none` for the operators that return `*this`), or `Except.error` with the
storage at the point where the operator stopped without a result. -/
def MutOp.run_volatile (W fb lb : Nat) (op : MutOp) (s : Storage) (rhs : Nat) :
    Except Storage (Storage × Option Nat) :=
  match op with
  | .assign => Except.ok (volatile_operator_assign W fb lb s rhs, none)
  | .add_assign => Except.ok (volatile_operator_add_assign W fb lb s rhs, none)
  | .sub_assign => Except.ok (volatile_operator_sub_assign W fb lb s rhs, none)
  | .mul_assign => Except.ok (volatile_operator_mul_assign W fb lb s rhs, none)
  | .div_assign =>
    match volatile_operator_div_assign W fb lb s rhs with
    | Except.ok s2 => Except.ok (s2, none)
    | Except.error s1 => Except.error s1
  | .mod_assign =>
    match volatile_operator_mod_assign W fb lb s rhs with
    | Except.ok s2 => Except.ok (s2, none)
    | Except.error s1 => Except.error s1
  | .and_assign => Except.ok (volatile_operator_and_assign W fb lb s rhs, none)
  | .or_assign => Except.ok (volatile_operator_or_assign W fb lb s rhs, none)
  | .xor_assign => Except.ok (volatile_operator_xor_assign W fb lb s rhs, none)
  | .shl_assign => Except.ok (volatile_operator_shl_assign W fb lb s rhs, none)
  | .shr_assign => Except.ok (volatile_operator_shr_assign W fb lb s rhs, none)
  | .pre_inc =>
    Except.ok ((volatile_operator_pre_inc W fb lb s).2, some (volatile_operator_pre_inc W fb lb s).1)
  | .post_inc =>
    Except.ok ((volatile_operator_post_inc W fb lb s).2, some (volatile_operator_post_inc W fb lb s).1)
  | .pre_dec =>
    Except.ok ((volatile_operator_pre_dec W fb lb s).2, some (volatile_operator_pre_dec W fb lb s).1)
  | .post_dec =>
    Except.ok ((volatile_operator_post_dec W fb lb s).2, some (volatile_operator_post_dec W fb lb s).1)

/-! ## The draft class of `codegen-tests/testbed.cpp` (lines 7-254)

The draft declares the same constants and private helpers; its `++` and `--` are written out
inline instead of calling `_assign`, `_add` and `_sub`. -/

namespace testbed

/-- Draft constant `NUM_BITS = last_bit - first_bit + 1` (testbed.cpp line 21). -/
def NUM_BITS (W fb lb : Nat) : Nat := (lb - fb + 1) % 2 ^ W

/-- Draft constant `MASK = (static_cast<nv_type>(1) << NUM_BITS) - 1` (testbed.cpp line 22). -/
def MASK (W fb lb : Nat) : Nat := sub W (shl W 1 (NUM_BITS W fb lb)) 1

/-- Draft helper: `(lhs & ~(MASK << first_bit)) | ((rhs & MASK) << first_bit)`. -/
def _assign (W fb lb lhs rhs : Nat) : Nat :=
  (lhs &&& bnot W (shl W (MASK W fb lb) fb)) ||| shl W (rhs &&& MASK W fb lb) fb

/-- Draft helper:
`(lhs & ~(MASK << first_bit)) | ((lhs + (rhs << first_bit)) & (MASK << first_bit))`. -/
def _add (W fb lb lhs rhs : Nat) : Nat :=
  (lhs &&& bnot W (shl W (MASK W fb lb) fb))
    ||| (add W lhs (shl W rhs fb) &&& shl W (MASK W fb lb) fb)

/-- Draft helper:
`(lhs & ~(MASK << first_bit)) | ((lhs - (rhs << first_bit)) & (MASK << first_bit))`. -/
def _sub (W fb lb lhs rhs : Nat) : Nat :=
  (lhs &&& bnot W (shl W (MASK W fb lb) fb))
    ||| (sub W lhs (shl W rhs fb) &&& shl W (MASK W fb lb) fb)

/-- Draft helper:
`(lhs & ~(MASK << first_bit)) | (((lhs & (MASK << first_bit)) * rhs) & (MASK << first_bit))`. -/
def _mul (W fb lb lhs rhs : Nat) : Nat :=
  (lhs &&& bnot W (shl W (MASK W fb lb) fb))
    ||| (mul W (lhs &&& shl W (MASK W fb lb) fb) rhs &&& shl W (MASK W fb lb) fb)

/-- Draft helper:
`(lhs & ~(MASK << first_bit)) | (((lhs & (MASK << first_bit)) / rhs) & (MASK << first_bit))`;
no result when `rhs` is zero. -/
def _div (W fb lb lhs rhs : Nat) : Option Nat :=
  if rhs = 0 then none
  else some ((lhs &&& bnot W (shl W (MASK W fb lb) fb))
    ||| (((lhs &&& shl W (MASK W fb lb) fb) / rhs) &&& shl W (MASK W fb lb) fb))

/-- Draft helper:
`(lhs & ~(MASK << first_bit)) | ((((lhs >> first_bit) & MASK) % rhs) << first_bit)`;
no result when `rhs` is zero. -/
def _mod (W fb lb lhs rhs : Nat) : Option Nat :=
  if rhs = 0 then none
  else some ((lhs &&& bnot W (shl W (MASK W fb lb) fb))
    ||| shl W (((shr lhs fb) &&& MASK W fb lb) % rhs) fb)

/-- Draft helper: `lhs & (~(MASK << first_bit) | (rhs << first_bit))`. -/
def _and (W fb lb lhs rhs : Nat) : Nat :=
  lhs &&& (bnot W (shl W (MASK W fb lb) fb) ||| shl W rhs fb)

/-- Draft helper: `lhs | ((rhs & MASK) << first_bit)`. -/
def _or (W fb lb lhs rhs : Nat) : Nat :=
  lhs ||| shl W (rhs &&& MASK W fb lb) fb

/-- Draft helper: `lhs ^ ((rhs & MASK) << first_bit)`. -/
def _xor (W fb lb lhs rhs : Nat) : Nat :=
  lhs ^^^ shl W (rhs &&& MASK W fb lb) fb

/-- Draft helper:
`(lhs & ~(MASK << first_bit)) | (((lhs & (MASK << first_bit)) << rhs) & (MASK << first_bit))`. -/
def _shl (W fb lb lhs rhs : Nat) : Nat :=
  (lhs &&& bnot W (shl W (MASK W fb lb) fb))
    ||| (shl W (lhs &&& shl W (MASK W fb lb) fb) rhs &&& shl W (MASK W fb lb) fb)

/-- Draft helper:
`(lhs & ~(MASK << first_bit)) | (((lhs & (MASK << first_bit)) >> rhs) & (MASK << first_bit))`. -/
def _shr (W fb lb lhs rhs : Nat) : Nat :=
  (lhs &&& bnot W (shl W (MASK W fb lb) fb))
    ||| (shr (lhs &&& shl W (MASK W fb lb) fb) rhs &&& shl W (MASK W fb lb) fb)

/-! ### Draft non-volatile operators (testbed.cpp lines 25-123) -/

/-- Draft conversion `operator nv_type() const`: `(_raw >> first_bit) & MASK`. -/
def operator_nv_type (W fb lb raw : Nat) : Nat := shr raw fb &&& MASK W fb lb

/-- Draft pre-increment (lines 95-101): `val = ((tmp >> first_bit) + 1) & MASK;
_raw = (tmp & ~(MASK << first_bit)) | (val << first_bit); return val;`. -/
def operator_pre_inc (W fb lb raw : Nat) : Nat × Nat :=
  let tmp := raw
  let val := add W (shr tmp fb) 1 &&& MASK W fb lb
  (val, (tmp &&& bnot W (shl W (MASK W fb lb) fb)) ||| shl W val fb)

/-- Draft post-increment (lines 103-108): `_raw = (tmp & ~(MASK << first_bit)) |
((tmp + (static_cast<nv_type>(1) << first_bit)) & (MASK << first_bit));
return (tmp >> first_bit) & MASK;`. -/
def operator_post_inc (W fb lb raw : Nat) : Nat × Nat :=
  let tmp := raw
  (shr tmp fb &&& MASK W fb lb,
    (tmp &&& bnot W (shl W (MASK W fb lb) fb))
      ||| (add W tmp (shl W 1 fb) &&& shl W (MASK W fb lb) fb))

/-- Draft pre-decrement (lines 110-116): `val = ((tmp >> first_bit) - 1) & MASK;
_raw = (tmp & ~(MASK << first_bit)) | (val << first_bit); return val;`. -/
def operator_pre_dec (W fb lb raw : Nat) : Nat × Nat :=
  let tmp := raw
  let val := sub W (shr tmp fb) 1 &&& MASK W fb lb
  (val, (tmp &&& bnot W (shl W (MASK W fb lb) fb)) ||| shl W val fb)

/-- Draft post-decrement (lines 118-123): `_raw = (tmp & ~(MASK << first_bit)) |
((tmp - (static_cast<nv_type>(1) << first_bit)) & (MASK << first_bit));
return (tmp >> first_bit) & MASK;`. -/
def operator_post_dec (W fb lb raw : Nat) : Nat × Nat :=
  let tmp := raw
  (shr tmp fb &&& MASK W fb lb,
    (tmp &&& bnot W (shl W (MASK W fb lb) fb))
      ||| (sub W tmp (shl W 1 fb) &&& shl W (MASK W fb lb) fb))

/-- New `_raw` written by a draft non-volatile operator; the compound operators are
`_raw = _helper(_raw, rhs)` (testbed.cpp lines 33-36 and 45-93). -/
def run (W fb lb : Nat) (op : MutOp) (raw rhs : Nat) : Option Nat :=
  match op with
  | .assign => some (_assign W fb lb raw rhs)
  | .add_assign => some (_add W fb lb raw rhs)
  | .sub_assign => some (_sub W fb lb raw rhs)
  | .mul_assign => some (_mul W fb lb raw rhs)
  | .div_assign => _div W fb lb raw rhs
  | .mod_assign => _mod W fb lb raw rhs
  | .and_assign => some (_and W fb lb raw rhs)
  | .or_assign => some (_or W fb lb raw rhs)
  | .xor_assign => some (_xor W fb lb raw rhs)
  | .shl_assign => some (_shl W fb lb raw rhs)
  | .shr_assign => some (_shr W fb lb raw rhs)
  | .pre_inc => some (operator_pre_inc W fb lb raw).2
  | .post_inc => some (operator_post_inc W fb lb raw).2
  | .pre_dec => some (operator_pre_dec W fb lb raw).2
  | .post_dec => some (operator_post_dec W fb lb raw).2

/-- Value returned by a draft non-volatile operator (`none` for the operators returning
`*this`). -/
def returned (W fb lb : Nat) (op : MutOp) (raw : Nat) : Option Nat :=
  match op with
  | .pre_inc => some (operator_pre_inc W fb lb raw).1
  | .post_inc => some (operator_post_inc W fb lb raw).1
  | .pre_dec => some (operator_pre_dec W fb lb raw).1
  | .post_dec => some (operator_post_dec W fb lb raw).1
  | _ => none

/-! ### Draft volatile operators (testbed.cpp lines 29-31, 38-41, 127-205) -/

/-- Draft volatile conversion: `return (_raw >> first_bit) & MASK;`. -/
def volatile_operator_nv_type (W fb lb : Nat) (s : Storage) : Nat × Storage :=
  let (raw, s1) := s.load
  (shr raw fb &&& MASK W fb lb, s1)

/-- Draft volatile compound operator `_raw = f(_raw, rhs);` for a helper `f` that always has
a result. -/
def volatile_update (f : Nat → Nat → Nat) (s : Storage) (rhs : Nat) : Storage :=
  let (raw, s1) := s.load
  s1.store (f raw rhs)

/-- Draft volatile compound operator `_raw = f(_raw, rhs);` for `_div` and `_mod`. -/
def volatile_update_checked (f : Nat → Nat → Option Nat) (s : Storage) (rhs : Nat) :
    Except Storage Storage :=
  let (raw, s1) := s.load
  match f raw rhs with
  | some v => Except.ok (s1.store v)
  | none => Except.error s1

/-- Draft volatile pre-increment (lines 177-183). -/
def volatile_operator_pre_inc (W fb lb : Nat) (s : Storage) : Nat × Storage :=
  let (tmp, s1) := s.load
  let val := add W (shr tmp fb) 1 &&& MASK W fb lb
  (val, s1.store ((tmp &&& bnot W (shl W (MASK W fb lb) fb)) ||| shl W val fb))

/-- Draft volatile post-increment (lines 185-190). -/
def volatile_operator_post_inc (W fb lb : Nat) (s : Storage) : Nat × Storage :=
  let (tmp, s1) := s.load
  (shr tmp fb &&& MASK W fb lb,
    s1.store ((tmp &&& bnot W (shl W (MASK W fb lb) fb))
      ||| (add W tmp (shl W 1 fb) &&& shl W (MASK W fb lb) fb)))

/-- Draft volatile pre-decrement (lines 192-198). -/
def volatile_operator_pre_dec (W fb lb : Nat) (s : Storage) : Nat × Storage :=
  let (tmp, s1) := s.load
  let val := sub W (shr tmp fb) 1 &&& MASK W fb lb
  (val, s1.store ((tmp &&& bnot W (shl W (MASK W fb lb) fb)) ||| shl W val fb))

/-- Draft volatile post-decrement (lines 200-205). -/
def volatile_operator_post_dec (W fb lb : Nat) (s : Storage) : Nat × Storage :=
  let (tmp, s1) := s.load
  (shr tmp fb &&& MASK W fb lb,
    s1.store ((tmp &&& bnot W (shl W (MASK W fb lb) fb))
      ||| (sub W tmp (shl W 1 fb) &&& shl W (MASK W fb lb) fb)))

/-- The volatile overload of a draft operator, as `MutOp.run_volatile` for the class of
`bitfield.hpp`. -/
def run_volatile (W fb lb : Nat) (op : MutOp) (s : Storage) (rhs : Nat) :
    Except Storage (Storage × Option Nat) :=
  match op with
  | .assign => Except.ok (volatile_update (_assign W fb lb) s rhs, none)
  | .add_assign => Except.ok (volatile_update (_add W fb lb) s rhs, none)
  | .sub_assign => Except.ok (volatile_update (_sub W fb lb) s rhs, none)
  | .mul_assign => Except.ok (volatile_update (_mul W fb lb) s rhs, none)
  | .div_assign =>
    match volatile_update_checked (_div W fb lb) s rhs with
    | Except.ok s2 => Except.ok (s2, none)
    | Except.error s1 => Except.error s1
  | .mod_assign =>
    match volatile_update_checked (_mod W fb lb) s rhs with
    | Except.ok s2 => Except.ok (s2, none)
    | Except.error s1 => Except.error s1
  | .and_assign => Except.ok (volatile_update (_and W fb lb) s rhs, none)
  | .or_assign => Except.ok (volatile_update (_or W fb lb) s rhs, none)
  | .xor_assign => Except.ok (volatile_update (_xor W fb lb) s rhs, none)
  | .shl_assign => Except.ok (volatile_update (_shl W fb lb) s rhs, none)
  | .shr_assign => Except.ok (volatile_update (_shr W fb lb) s rhs, none)
  | .pre_inc =>
    Except.ok ((volatile_operator_pre_inc W fb lb s).2,
      some (volatile_operator_pre_inc W fb lb s).1)
  | .post_inc =>
    Except.ok ((volatile_operator_post_inc W fb lb s).2,
      some (volatile_operator_post_inc W fb lb s).1)
  | .pre_dec =>
    Except.ok ((volatile_operator_pre_dec W fb lb s).2,
      some (volatile_operator_pre_dec W fb lb s).1)
  | .post_dec =>
    Except.ok ((volatile_operator_post_dec W fb lb s).2,
      some (volatile_operator_post_dec W fb lb s).1)

end testbed

/-! ## Shifts as the language defines them

A shift has a defined result only for a count below the width of its promoted left operand.
An operand of a `value_type` narrower than `int` (`uint8_t`, `uint16_t`) is promoted to `int`,
taken to have 32 bits; `uint32_t` and `uint64_t` operands keep their type. The definitions
below are the ones above with that condition made explicit. -/

/-- Width of the type in which a `value_type` operand of `W` bits is shifted: 32 (`int`) for
`W < 32`, `W` otherwise. -/
def promoted_width (W : Nat) : Nat := if W < 32 then 32 else W

/-- Left shift `x << n` where the language defines it. -/
def shl_checked (W x n : Nat) : Option Nat :=
  if n < promoted_width W then some (shl W x n) else none

/-- Right shift `x >> n` where the language defines it. -/
def shr_checked (W x n : Nat) : Option Nat :=
  if n < promoted_width W then some (shr x n) else none

/-- Initializer of `MASK`, `(static_cast<value_type>(1) << NUM_BITS) - 1`, with the checked
shift. -/
def MASK_checked (W fb lb : Nat) : Option Nat :=
  match shl_checked W 1 (NUM_BITS W fb lb) with
  | some s => some (sub W s 1)
  | none => none

/-- Helper `_shl` with the checked shift by `rhs`. -/
def _shl_checked (W fb lb lhs rhs : Nat) : Option Nat :=
  match shl_checked W (lhs &&& shl W (MASK W fb lb) fb) rhs with
  | some y => some ((lhs &&& bnot W (shl W (MASK W fb lb) fb)) ||| (y &&& shl W (MASK W fb lb) fb))
  | none => none

/-- Helper `_shr` with the checked shift by `rhs`. -/
def _shr_checked (W fb lb lhs rhs : Nat) : Option Nat :=
  match shr_checked W (lhs &&& shl W (MASK W fb lb) fb) rhs with
  | some y => some ((lhs &&& bnot W (shl W (MASK W fb lb) fb)) ||| (y &&& shl W (MASK W fb lb) fb))
  | none => none

/-- The word written by a mutating operator when every shift and division has a defined
result: `none` when the initializer of `MASK` has none, when `<<=` or `>>=` shifts by a count
that is not below the promoted width, or when `/=` or `%=` divides by zero. Overflow of
promoted `int` operands (`W < 32`) is not tracked. -/
def MutOp.run_checked (W fb lb : Nat) (op : MutOp) (raw rhs : Nat) : Option Nat :=
  match MASK_checked W fb lb with
  | none => none
  | some _ =>
    match op with
    | .shl_assign => _shl_checked W fb lb raw rhs
    | .shr_assign => _shr_checked W fb lb raw rhs
    | _ => MutOp.run W fb lb op raw rhs

/-! ## Field-level description of the operators

What section 4.1 of the specification says an operator does to the field, as a function of
the old field value `x` and the operand: the second definition that the operators of the source
are compared with. -/

/-- New field value after a mutating operator, for a window of width `w`: wrap-around
arithmetic modulo `2 ^ w` on the old field value `x`; `none` for `/= 0` and `%= 0`. -/
def field_step (w : Nat) (op : MutOp) (x rhs : Nat) : Option Nat :=
  match op with
  | .assign => some (rhs % 2 ^ w)
  | .add_assign => some ((x + rhs) % 2 ^ w)
  | .sub_assign => some ((x + (2 ^ w - rhs % 2 ^ w)) % 2 ^ w)
  | .mul_assign => some ((x * rhs) % 2 ^ w)
  | .div_assign => if rhs = 0 then none else some (x / rhs)
  | .mod_assign => if rhs = 0 then none else some (x % rhs)
  | .and_assign => some (x &&& rhs % 2 ^ w)
  | .or_assign => some (x ||| rhs % 2 ^ w)
  | .xor_assign => some (x ^^^ rhs % 2 ^ w)
  | .shl_assign => some ((x * 2 ^ rhs) % 2 ^ w)
  | .shr_assign => some (x / 2 ^ rhs)
  | .pre_inc => some ((x + 1) % 2 ^ w)
  | .post_inc => some ((x + 1) % 2 ^ w)
  | .pre_dec => some ((x + (2 ^ w - 1)) % 2 ^ w)
  | .post_dec => some ((x + (2 ^ w - 1)) % 2 ^ w)

/-! ## Basic facts about the constants -/

theorem NUM_BITS_eq {W fb lb : Nat} (hlW : lb < W) :
    NUM_BITS W fb lb = lb - fb + 1 := by
  unfold NUM_BITS
  apply Nat.mod_eq_of_lt
  have h : W < 2 ^ W := Nat.lt_two_pow W
  omega

theorem MASK_eq {W fb lb : Nat} (hlW : lb < W) :
    MASK W fb lb = 2 ^ (lb - fb + 1) - 1 := by
  unfold MASK sub shl
  rw [NUM_BITS_eq hlW, Nat.shiftLeft_eq, Nat.one_mul]
  have hW1 : 1 < 2 ^ W := Nat.one_lt_two_pow (by omega)
  rw [Nat.mod_eq_of_lt hW1]
  rcases Nat.lt_or_ge (lb - fb + 1) W with h | h
  · have hlt : 2 ^ (lb - fb + 1) < 2 ^ W := Nat.pow_lt_pow_right (by decide) h
    have hpos : 0 < 2 ^ (lb - fb + 1) := Nat.two_pow_pos _
    rw [Nat.mod_eq_of_lt hlt]
    have e : 2 ^ (lb - fb + 1) + (2 ^ W - 1) = (2 ^ (lb - fb + 1) - 1) + 2 ^ W := by omega
    rw [e, Nat.add_mod_right]
    exact Nat.mod_eq_of_lt (by omega)
  · have e : lb - fb + 1 = W := by omega
    rw [e, Nat.mod_self, Nat.zero_add]
    exact Nat.mod_eq_of_lt (by omega)

theorem testBit_MASK {W fb lb : Nat} (hlW : lb < W) (j : Nat) :
    (MASK W fb lb).testBit j = decide (j < lb - fb + 1) := by
  rw [MASK_eq hlW, Nat.testBit_two_pow_sub_one]

theorem testBit_shl (W x n i : Nat) :
    (shl W x n).testBit i = (decide (i < W) && (decide (n ≤ i) && x.testBit (i - n))) := by
  unfold shl
  rw [Nat.testBit_mod_two_pow, Nat.testBit_shiftLeft]

theorem shl_lt (W x n : Nat) : shl W x n < 2 ^ W :=
  Nat.mod_lt _ (Nat.two_pow_pos _)

theorem testBit_bnot {W x : Nat} (hx : x < 2 ^ W) (i : Nat) :
    (bnot W x).testBit i = (decide (i < W) && !x.testBit i) := by
  unfold bnot
  rw [Nat.sub_sub, Nat.add_comm 1 x]
  exact Nat.testBit_two_pow_sub_succ hx i

/-- Bit `i` of `MASK << first_bit` is set exactly for `first_bit <= i <= last_bit`. -/
theorem testBit_window {W fb lb : Nat} (hfl : fb ≤ lb) (hlW : lb < W) (i : Nat) :
    (shl W (MASK W fb lb) fb).testBit i = (decide (fb ≤ i) && decide (i ≤ lb)) := by
  rw [testBit_shl, testBit_MASK hlW]
  by_cases h1 : fb ≤ i <;> by_cases h2 : i ≤ lb <;> by_cases h3 : i < W <;>
    simp [h1, h2, h3] <;> omega

/-- Bit `i` of `~(MASK << first_bit)` is set exactly outside the window (below `W`). -/
theorem testBit_outside {W fb lb : Nat} (hfl : fb ≤ lb) (hlW : lb < W) (i : Nat) :
    (bnot W (shl W (MASK W fb lb) fb)).testBit i
      = (decide (i < W) && !(decide (fb ≤ i) && decide (i ≤ lb))) := by
  rw [testBit_bnot (shl_lt _ _ _), testBit_window hfl hlW]

/-! ## Frame lemmas: what an update leaves outside the window -/

/-- Re-inserting any word `y` through the window mask keeps the outer bits of `lhs`, whatever
`y` is. -/
theorem frame_core {W fb lb : Nat} (hfl : fb ≤ lb) (hlW : lb < W) (lhs y : Nat) :
    ((lhs &&& bnot W (shl W (MASK W fb lb) fb)) ||| (y &&& shl W (MASK W fb lb) fb))
        &&& bnot W (shl W (MASK W fb lb) fb)
      = lhs &&& bnot W (shl W (MASK W fb lb) fb) := by
  apply Nat.eq_of_testBit_eq
  intro i
  simp only [Nat.testBit_and, Nat.testBit_or, testBit_outside hfl hlW, testBit_window hfl hlW]
  cases lhs.testBit i <;> cases y.testBit i <;> cases decide (i < W) <;>
    cases decide (fb ≤ i) <;> cases decide (i ≤ lb) <;> rfl

/-- Shifting a masked value into place is the same as masking the shifted value. -/
theorem shl_and_MASK {W fb lb : Nat} (hlW : lb < W) (v : Nat) :
    shl W (v &&& MASK W fb lb) fb = shl W v fb &&& shl W (MASK W fb lb) fb := by
  apply Nat.eq_of_testBit_eq
  intro i
  simp only [Nat.testBit_and, testBit_shl, testBit_MASK hlW]
  cases v.testBit (i - fb) <;> cases decide (i < W) <;>
    cases decide (fb ≤ i) <;> cases decide (i - fb < lb - fb + 1) <;> rfl

theorem frame_and {W fb lb : Nat} (hfl : fb ≤ lb) (hlW : lb < W) (lhs rhs : Nat) :
    _and W fb lb lhs rhs &&& bnot W (shl W (MASK W fb lb) fb)
      = lhs &&& bnot W (shl W (MASK W fb lb) fb) := by
  unfold _and
  apply Nat.eq_of_testBit_eq
  intro i
  simp only [Nat.testBit_and, Nat.testBit_or, testBit_outside hfl hlW, testBit_shl]
  cases lhs.testBit i <;> cases rhs.testBit (i - fb) <;> cases decide (i < W) <;>
    cases decide (fb ≤ i) <;> cases decide (i ≤ lb) <;> rfl

theorem frame_or {W fb lb : Nat} (hfl : fb ≤ lb) (hlW : lb < W) (lhs rhs : Nat) :
    _or W fb lb lhs rhs &&& bnot W (shl W (MASK W fb lb) fb)
      = lhs &&& bnot W (shl W (MASK W fb lb) fb) := by
  unfold _or
  rw [shl_and_MASK hlW]
  apply Nat.eq_of_testBit_eq
  intro i
  simp only [Nat.testBit_and, Nat.testBit_or, testBit_outside hfl hlW, testBit_window hfl hlW]
  cases lhs.testBit i <;> cases (shl W rhs fb).testBit i <;> cases decide (i < W) <;>
    cases decide (fb ≤ i) <;> cases decide (i ≤ lb) <;> rfl

theorem frame_xor {W fb lb : Nat} (hfl : fb ≤ lb) (hlW : lb < W) (lhs rhs : Nat) :
    _xor W fb lb lhs rhs &&& bnot W (shl W (MASK W fb lb) fb)
      = lhs &&& bnot W (shl W (MASK W fb lb) fb) := by
  unfold _xor
  rw [shl_and_MASK hlW]
  apply Nat.eq_of_testBit_eq
  intro i
  simp only [Nat.testBit_and, Nat.testBit_xor, testBit_outside hfl hlW, testBit_window hfl hlW]
  cases lhs.testBit i <;> cases (shl W rhs fb).testBit i <;> cases decide (i < W) <;>
    cases decide (fb ≤ i) <;> cases decide (i ≤ lb) <;> rfl

/-- The outer part kept by every helper is still a `W`-bit word when the window part is. -/
theorem core_lt {W : Nat} {lhs N z : Nat} (hl : lhs < 2 ^ W) (hz : z < 2 ^ W) :
    (lhs &&& N) ||| z < 2 ^ W :=
  Nat.or_lt_two_pow (Nat.lt_of_le_of_lt Nat.and_le_left hl) hz

theorem and_window_lt (W fb lb y : Nat) : y &&& shl W (MASK W fb lb) fb < 2 ^ W :=
  Nat.lt_of_le_of_lt Nat.and_le_right (shl_lt _ _ _)

theorem and_MASK_of_le {W fb lb : Nat} (hlW : lb < W) {t : Nat} (ht : t ≤ MASK W fb lb) :
    t &&& MASK W fb lb = t := by
  rw [MASK_eq hlW] at ht ⊢
  have hpos : 0 < 2 ^ (lb - fb + 1) := Nat.two_pow_pos _
  exact Nat.and_pow_two_sub_one_of_lt_two_pow (by omega)

/-- Equal words under `~(MASK << first_bit)` have equal bits at every position outside
`[first_bit, last_bit]`. -/
theorem outside_bits {W fb lb : Nat} (hfl : fb ≤ lb) (hlW : lb < W) {a b : Nat}
    (ha : a < 2 ^ W) (hb : b < 2 ^ W)
    (h : a &&& bnot W (shl W (MASK W fb lb) fb) = b &&& bnot W (shl W (MASK W fb lb) fb))
    (i : Nat) (hi : i < fb ∨ lb < i) : a.testBit i = b.testBit i := by
  rcases Nat.lt_or_ge i W with hiW | hiW
  · have hbit := congrArg (fun x => Nat.testBit x i) h
    simp only [Nat.testBit_and, testBit_outside hfl hlW] at hbit
    have hout : (decide (i < W) && !(decide (fb ≤ i) && decide (i ≤ lb))) = true := by
      rcases hi with hi | hi
      · have : ¬ fb ≤ i := by omega
        simp [hiW, this]
      · have : ¬ i ≤ lb := by omega
        simp [hiW, this]
    rw [hout, Bool.and_true, Bool.and_true] at hbit
    exact hbit
  · have hpow : 2 ^ W ≤ 2 ^ i := Nat.pow_le_pow_right (by decide) hiW
    rw [Nat.testBit_lt_two_pow (Nat.lt_of_lt_of_le ha hpow),
      Nat.testBit_lt_two_pow (Nat.lt_of_lt_of_le hb hpow)]

theorem isolated_of {W fb lb raw raw' : Nat} (hfl : fb ≤ lb) (hlW : lb < W)
    (hraw : raw < 2 ^ W) (hlt : raw' < 2 ^ W)
    (h : raw' &&& bnot W (shl W (MASK W fb lb) fb) = raw &&& bnot W (shl W (MASK W fb lb) fb)) :
    Isolated W fb lb raw raw' :=
  ⟨hlt, h, outside_bits hfl hlW hlt hraw h⟩

theorem isolated_core {W fb lb raw : Nat} (hfl : fb ≤ lb) (hlW : lb < W)
    (hraw : raw < 2 ^ W) (y : Nat) :
    Isolated W fb lb raw
      ((raw &&& bnot W (shl W (MASK W fb lb) fb)) ||| (y &&& shl W (MASK W fb lb) fb)) :=
  isolated_of hfl hlW hraw (core_lt hraw (and_window_lt W fb lb y)) (frame_core hfl hlW raw y)

/-! ## Value lemmas: what an update leaves inside the window -/

/-- The conversion operator reads `raw / 2 ^ first_bit` modulo `2 ^ NUM_BITS`. -/
theorem value_eq_div_mod {W fb lb : Nat} (hlW : lb < W) (raw : Nat) :
    operator_value_type W fb lb raw = raw / 2 ^ fb % 2 ^ (lb - fb + 1) := by
  unfold operator_value_type shr
  rw [MASK_eq hlW, Nat.and_pow_two_sub_one_eq_mod, Nat.shiftRight_eq_div_pow]

theorem value_lt {W fb lb : Nat} (hlW : lb < W) (raw : Nat) :
    operator_value_type W fb lb raw < 2 ^ (lb - fb + 1) := by
  rw [value_eq_div_mod hlW]
  exact Nat.mod_lt _ (Nat.two_pow_pos _)

theorem testBit_value {W fb lb : Nat} (hlW : lb < W) (raw j : Nat) :
    (operator_value_type W fb lb raw).testBit j
      = (raw.testBit (fb + j) && decide (j < lb - fb + 1)) := by
  unfold operator_value_type shr
  rw [Nat.testBit_and, Nat.testBit_shiftRight, testBit_MASK hlW]

/-- After re-inserting `y` through the window mask the field reads the window of `y`; the
kept word `lhs` does not matter. -/
theorem value_core {W fb lb : Nat} (hfl : fb ≤ lb) (hlW : lb < W) (lhs y : Nat) :
    operator_value_type W fb lb
        ((lhs &&& bnot W (shl W (MASK W fb lb) fb)) ||| (y &&& shl W (MASK W fb lb) fb))
      = operator_value_type W fb lb y := by
  apply Nat.eq_of_testBit_eq
  intro j
  simp only [testBit_value hlW, Nat.testBit_and, Nat.testBit_or, testBit_outside hfl hlW,
    testBit_window hfl hlW]
  by_cases hj : j < lb - fb + 1
  · have h1 : fb ≤ fb + j := by omega
    have h2 : fb + j ≤ lb := by omega
    simp [hj, h1, h2]
  · simp [hj]

/-- Truncating to `W` bits does not change a window that lies below bit `W`. -/
theorem window_mod {W fb w : Nat} (h : fb + w ≤ W) (a : Nat) :
    a % 2 ^ W / 2 ^ fb % 2 ^ w = a / 2 ^ fb % 2 ^ w := by
  rw [← Nat.mod_mul_right_div_self, ← Nat.mod_mul_right_div_self a,
    ← Nat.pow_add, Nat.mod_mod_of_dvd _ (Nat.pow_dvd_pow 2 h)]

theorem value_mod {W fb lb : Nat} (hfl : fb ≤ lb) (hlW : lb < W) (a : Nat) :
    operator_value_type W fb lb (a % 2 ^ W) = operator_value_type W fb lb a := by
  rw [value_eq_div_mod hlW, value_eq_div_mod hlW]
  exact window_mod (by omega) a

/-- The window of `v * 2 ^ first_bit` holds the low `NUM_BITS` bits of `v`. -/
theorem value_mul_pow {W fb lb : Nat} (hlW : lb < W) (v : Nat) :
    operator_value_type W fb lb (v * 2 ^ fb) = v % 2 ^ (lb - fb + 1) := by
  rw [value_eq_div_mod hlW, Nat.mul_div_cancel _ (Nat.two_pow_pos _)]

theorem value_shl {W fb lb : Nat} (hfl : fb ≤ lb) (hlW : lb < W) (v : Nat) :
    operator_value_type W fb lb (shl W v fb) = v % 2 ^ (lb - fb + 1) := by
  unfold shl
  rw [value_mod hfl hlW, Nat.shiftLeft_eq, value_mul_pow hlW]

/-- The field still in its shifted position: `lhs & (MASK << first_bit)` is the field value
times `2 ^ first_bit`. -/
theorem and_window_eq {W fb lb : Nat} (hfl : fb ≤ lb) (hlW : lb < W) (lhs : Nat) :
    lhs &&& shl W (MASK W fb lb) fb = operator_value_type W fb lb lhs * 2 ^ fb := by
  apply Nat.eq_of_testBit_eq
  intro i
  rw [← Nat.shiftLeft_eq, Nat.testBit_shiftLeft, testBit_value hlW, Nat.testBit_and,
    testBit_window hfl hlW]
  by_cases h1 : fb ≤ i
  · have e : fb + (i - fb) = i := by omega
    by_cases h2 : i ≤ lb
    · have h3 : i - fb < lb - fb + 1 := by omega
      simp [h1, h2, h3, e]
    · have h3 : ¬ i - fb < lb - fb + 1 := by omega
      simp [h1, h2, h3]
  · simp [h1]

/-- Adding a multiple of `2 ^ first_bit` adds to the field and wraps at the window width;
the bits of `a` below the window produce no carry. -/
theorem value_add_mul {W fb lb : Nat} (hlW : lb < W) (a r : Nat) :
    operator_value_type W fb lb (a + r * 2 ^ fb)
      = (operator_value_type W fb lb a + r) % 2 ^ (lb - fb + 1) := by
  rw [value_eq_div_mod hlW, value_eq_div_mod hlW,
    Nat.add_mul_div_right _ _ (Nat.two_pow_pos fb), Nat.mod_add_mod]

/-- Field after adding `rhs << first_bit` in `value_type`. -/
theorem value_add_shl {W fb lb : Nat} (hfl : fb ≤ lb) (hlW : lb < W) (a r : Nat) :
    operator_value_type W fb lb (add W a (shl W r fb))
      = (operator_value_type W fb lb a + r) % 2 ^ (lb - fb + 1) := by
  unfold add shl
  rw [Nat.add_mod_mod, value_mod hfl hlW, Nat.shiftLeft_eq, value_add_mul hlW]

/-- Subtracting and adding back the same `W`-bit word restores the word. -/
theorem sub_add_cancel_word {W a s : Nat} (hs : s < 2 ^ W) :
    (sub W a s + s) % 2 ^ W = a % 2 ^ W := by
  unfold sub
  rw [Nat.mod_eq_of_lt hs, Nat.mod_add_mod]
  have e : a + (2 ^ W - s) + s = a + 2 ^ W := by omega
  rw [e, Nat.add_mod_right]

/-- Field after subtracting `rhs << first_bit` in `value_type`, characterised by adding `rhs`
back. -/
theorem value_sub_shl_add {W fb lb : Nat} (hfl : fb ≤ lb) (hlW : lb < W) (a r : Nat) :
    (operator_value_type W fb lb (sub W a (shl W r fb)) + r) % 2 ^ (lb - fb + 1)
      = operator_value_type W fb lb a := by
  rw [← value_add_shl hfl hlW, ← value_mod hfl hlW a]
  unfold add
  rw [sub_add_cancel_word (shl_lt W r fb)]

/-- A residue `v` with `(v + r) % m = x` is `(x - r) mod m`, both as an integer residue and
in the natural-number form `(x + (m - r % m)) % m`. -/
theorem residue_of_add_back {m v r x : Nat} (hv : v < m) (h : (v + r) % m = x) :
    (v : Int) = ((x : Int) - (r : Int)) % (m : Int) ∧ v = (x + (m - r % m)) % m := by
  have hm : 0 < m := by omega
  constructor
  · have hx : (x : Int) = ((v : Int) + (r : Int)) % (m : Int) := by
      rw [← h]; push_cast; rfl
    rw [hx, Int.sub_emod, Int.emod_emod, ← Int.sub_emod, Int.add_sub_cancel]
    exact (Int.emod_eq_of_lt (by omega) (by omega)).symm
  · have hr : r % m < m := Nat.mod_lt _ hm
    rw [← h, Nat.mod_add_mod]
    have e : v + r + (m - r % m) = v + m + (r - r % m) := by
      have : r % m ≤ r := Nat.mod_le _ _
      omega
    have hd : m ∣ r - r % m := Nat.dvd_sub_mod r
    obtain ⟨k, hk⟩ := hd
    rw [e, hk, Nat.add_mul_mod_self_left, Nat.add_mod_right, Nat.mod_eq_of_lt hv]

theorem shl_def (W x n : Nat) : shl W x n = x * 2 ^ n % 2 ^ W := by
  unfold shl
  rw [Nat.shiftLeft_eq]

/-- A value that fits the window is shifted into place without truncation. -/
theorem shl_of_lt {W fb lb : Nat} (hfl : fb ≤ lb) (hlW : lb < W) {x : Nat}
    (hx : x < 2 ^ (lb - fb + 1)) : shl W x fb = x * 2 ^ fb := by
  unfold shl
  rw [Nat.shiftLeft_eq]
  apply Nat.mod_eq_of_lt
  have h1 : x * 2 ^ fb < 2 ^ (lb - fb + 1) * 2 ^ fb :=
    Nat.mul_lt_mul_of_pos_right hx (Nat.two_pow_pos fb)
  have h2 : 2 ^ (lb - fb + 1) * 2 ^ fb ≤ 2 ^ W := by
    rw [← Nat.pow_add]
    exact Nat.pow_le_pow_right (by decide) (by omega)
  omega

/-- The window of the shifted field divided by `rhs` is the quotient of the field. -/
theorem value_div {W fb lb : Nat} (hlW : lb < W) {x rhs : Nat} (hx : x < 2 ^ (lb - fb + 1)) :
    operator_value_type W fb lb (x * 2 ^ fb / rhs) = x / rhs := by
  rw [value_eq_div_mod hlW, Nat.div_div_eq_div_mul,
    Nat.mul_div_mul_right _ _ (Nat.two_pow_pos fb)]
  exact Nat.mod_eq_of_lt (Nat.lt_of_le_of_lt (Nat.div_le_self _ _) hx)

/-! ## Every operator at once: frame and field -/

/-- Each mutating operator (with a non-zero divisor for `/=` and `%=`) writes a word that is
isolated from the old one. -/
theorem run_isolated {W fb lb : Nat} (hfl : fb ≤ lb) (hlW : lb < W) {raw : Nat}
    (hraw : raw < 2 ^ W) (op : MutOp) (rhs : Nat)
    (hz : op = MutOp.div_assign ∨ op = MutOp.mod_assign → rhs ≠ 0) :
    ∃ raw', MutOp.run W fb lb op raw rhs = some raw' ∧ Isolated W fb lb raw raw' := by
  have hassign : ∀ v, Isolated W fb lb raw (_assign W fb lb raw v) := by
    intro v
    unfold _assign
    rw [shl_and_MASK hlW]
    exact isolated_core hfl hlW hraw _
  cases op
  case assign => exact ⟨_, rfl, hassign rhs⟩
  case add_assign => exact ⟨_, rfl, isolated_core hfl hlW hraw _⟩
  case sub_assign => exact ⟨_, rfl, isolated_core hfl hlW hraw _⟩
  case mul_assign => exact ⟨_, rfl, isolated_core hfl hlW hraw _⟩
  case div_assign =>
    exact ⟨_, if_neg (hz (Or.inl rfl)), isolated_core hfl hlW hraw _⟩
  case mod_assign =>
    refine ⟨_, if_neg (hz (Or.inr rfl)), ?_⟩
    have hle : (shr raw fb &&& MASK W fb lb) % rhs ≤ MASK W fb lb :=
      Nat.le_trans (Nat.mod_le _ _) Nat.and_le_right
    rw [← and_MASK_of_le hlW hle, shl_and_MASK hlW]
    exact isolated_core hfl hlW hraw _
  case and_assign =>
    exact ⟨_, rfl, isolated_of hfl hlW hraw (Nat.lt_of_le_of_lt Nat.and_le_left hraw)
      (frame_and hfl hlW raw rhs)⟩
  case or_assign =>
    exact ⟨_, rfl, isolated_of hfl hlW hraw (Nat.or_lt_two_pow hraw (shl_lt _ _ _))
      (frame_or hfl hlW raw rhs)⟩
  case xor_assign =>
    exact ⟨_, rfl, isolated_of hfl hlW hraw (Nat.xor_lt_two_pow hraw (shl_lt _ _ _))
      (frame_xor hfl hlW raw rhs)⟩
  case shl_assign => exact ⟨_, rfl, isolated_core hfl hlW hraw _⟩
  case shr_assign => exact ⟨_, rfl, isolated_core hfl hlW hraw _⟩
  case pre_inc =>
    refine ⟨_, rfl, ?_⟩
    show Isolated W fb lb raw ((raw &&& bnot W (shl W (MASK W fb lb) fb))
      ||| shl W (add W (shr raw fb) 1 &&& MASK W fb lb) fb)
    rw [shl_and_MASK hlW]
    exact isolated_core hfl hlW hraw _
  case post_inc => exact ⟨_, rfl, isolated_core hfl hlW hraw _⟩
  case pre_dec => exact ⟨_, rfl, hassign _⟩
  case post_dec => exact ⟨_, rfl, isolated_core hfl hlW hraw _⟩

theorem and_MASK_eq_mod {W fb lb : Nat} (hlW : lb < W) (v : Nat) :
    v &&& MASK W fb lb = v % 2 ^ (lb - fb + 1) := by
  rw [MASK_eq hlW, Nat.and_pow_two_sub_one_eq_mod]

theorem value_assign {W fb lb : Nat} (hfl : fb ≤ lb) (hlW : lb < W) (lhs v : Nat) :
    operator_value_type W fb lb (_assign W fb lb lhs v) = v % 2 ^ (lb - fb + 1) := by
  unfold _assign
  rw [shl_and_MASK hlW, value_core hfl hlW, value_shl hfl hlW]

theorem value_add {W fb lb : Nat} (hfl : fb ≤ lb) (hlW : lb < W) (lhs r : Nat) :
    operator_value_type W fb lb (_add W fb lb lhs r)
      = (operator_value_type W fb lb lhs + r) % 2 ^ (lb - fb + 1) := by
  unfold _add
  rw [value_core hfl hlW, value_add_shl hfl hlW]

theorem value_sub {W fb lb : Nat} (hfl : fb ≤ lb) (hlW : lb < W) (lhs r : Nat) :
    operator_value_type W fb lb (_sub W fb lb lhs r)
      = (operator_value_type W fb lb lhs + (2 ^ (lb - fb + 1) - r % 2 ^ (lb - fb + 1)))
          % 2 ^ (lb - fb + 1) := by
  have hback := value_sub_shl_add hfl hlW lhs r
  have hv : operator_value_type W fb lb (sub W lhs (shl W r fb)) < 2 ^ (lb - fb + 1) :=
    value_lt hlW _
  unfold _sub
  rw [value_core hfl hlW]
  exact (residue_of_add_back hv hback).2

theorem value_mul {W fb lb : Nat} (hfl : fb ≤ lb) (hlW : lb < W) (lhs r : Nat) :
    operator_value_type W fb lb (_mul W fb lb lhs r)
      = (operator_value_type W fb lb lhs * r) % 2 ^ (lb - fb + 1) := by
  unfold _mul mul
  rw [value_core hfl hlW, value_mod hfl hlW, and_window_eq hfl hlW,
    Nat.mul_right_comm, value_mul_pow hlW]

theorem value_shl_assign {W fb lb : Nat} (hfl : fb ≤ lb) (hlW : lb < W) (lhs r : Nat) :
    operator_value_type W fb lb (_shl W fb lb lhs r)
      = (operator_value_type W fb lb lhs * 2 ^ r) % 2 ^ (lb - fb + 1) := by
  unfold _shl
  rw [value_core hfl hlW, shl_def W (lhs &&& shl W (MASK W fb lb) fb) r,
    value_mod hfl hlW, and_window_eq hfl hlW, Nat.mul_right_comm, value_mul_pow hlW]

theorem value_shr_assign {W fb lb : Nat} (hfl : fb ≤ lb) (hlW : lb < W) (lhs r : Nat) :
    operator_value_type W fb lb (_shr W fb lb lhs r)
      = operator_value_type W fb lb lhs / 2 ^ r := by
  unfold _shr shr
  rw [value_core hfl hlW, and_window_eq hfl hlW, Nat.shiftRight_eq_div_pow]
  exact value_div hlW (value_lt hlW lhs)

theorem value_div_some {W fb lb : Nat} (hfl : fb ≤ lb) (hlW : lb < W) (lhs : Nat) {r : Nat}
    (hr : r ≠ 0) :
    (_div W fb lb lhs r).map (operator_value_type W fb lb)
      = some (operator_value_type W fb lb lhs / r) := by
  unfold _div
  rw [if_neg hr, Option.map_some', value_core hfl hlW, and_window_eq hfl hlW,
    value_div hlW (value_lt hlW lhs)]

theorem value_mod_some {W fb lb : Nat} (hfl : fb ≤ lb) (hlW : lb < W) (lhs : Nat) {r : Nat}
    (hr : r ≠ 0) :
    (_mod W fb lb lhs r).map (operator_value_type W fb lb)
      = some (operator_value_type W fb lb lhs % r) := by
  have hle : operator_value_type W fb lb lhs % r ≤ MASK W fb lb :=
    Nat.le_trans (Nat.mod_le _ _) Nat.and_le_right
  have hform : (lhs &&& bnot W (shl W (MASK W fb lb) fb))
        ||| shl W ((shr lhs fb &&& MASK W fb lb) % r) fb
      = (lhs &&& bnot W (shl W (MASK W fb lb) fb))
        ||| (shl W (operator_value_type W fb lb lhs % r) fb &&& shl W (MASK W fb lb) fb) := by
    rw [← shl_and_MASK hlW, and_MASK_of_le hlW hle]
    rfl
  unfold _mod
  rw [if_neg hr, Option.map_some', hform, value_core hfl hlW, value_shl hfl hlW,
    Nat.mod_eq_of_lt (Nat.lt_of_le_of_lt (Nat.mod_le _ _) (value_lt hlW lhs))]

theorem value_and {W fb lb : Nat} (hfl : fb ≤ lb) (hlW : lb < W) (lhs r : Nat) :
    operator_value_type W fb lb (_and W fb lb lhs r)
      = operator_value_type W fb lb lhs &&& r % 2 ^ (lb - fb + 1) := by
  rw [← @and_MASK_eq_mod W fb lb hlW r]
  unfold _and
  apply Nat.eq_of_testBit_eq
  intro j
  simp only [testBit_value hlW, Nat.testBit_and, Nat.testBit_or, testBit_outside hfl hlW,
    testBit_shl, testBit_MASK hlW]
  by_cases hj : j < lb - fb + 1
  · have h1 : fb ≤ fb + j := by omega
    have h2 : fb + j ≤ lb := by omega
    have h3 : fb + j < W := by omega
    simp [hj, h1, h2, h3]
  · simp [hj]

theorem value_or {W fb lb : Nat} (hfl : fb ≤ lb) (hlW : lb < W) (lhs r : Nat) :
    operator_value_type W fb lb (_or W fb lb lhs r)
      = operator_value_type W fb lb lhs ||| r % 2 ^ (lb - fb + 1) := by
  rw [← @and_MASK_eq_mod W fb lb hlW r]
  unfold _or
  apply Nat.eq_of_testBit_eq
  intro j
  simp only [testBit_value hlW, Nat.testBit_and, Nat.testBit_or, testBit_shl,
    testBit_MASK hlW]
  by_cases hj : j < lb - fb + 1
  · have h1 : fb ≤ fb + j := by omega
    have h3 : fb + j < W := by omega
    simp [hj, h1, h3]
  · simp [hj]

theorem value_xor {W fb lb : Nat} (hfl : fb ≤ lb) (hlW : lb < W) (lhs r : Nat) :
    operator_value_type W fb lb (_xor W fb lb lhs r)
      = operator_value_type W fb lb lhs ^^^ r % 2 ^ (lb - fb + 1) := by
  rw [← @and_MASK_eq_mod W fb lb hlW r]
  unfold _xor
  apply Nat.eq_of_testBit_eq
  intro j
  simp only [testBit_value hlW, Nat.testBit_and, Nat.testBit_xor, testBit_shl,
    testBit_MASK hlW]
  by_cases hj : j < lb - fb + 1
  · have h1 : fb ≤ fb + j := by omega
    have h3 : fb + j < W := by omega
    simp [hj, h1, h3]
  · simp [hj]

/-- The value computed by pre-increment, `((tmp >> first_bit) + 1) & MASK`. -/
theorem pre_inc_val {W fb lb : Nat} (hfl : fb ≤ lb) (hlW : lb < W) (raw : Nat) :
    add W (shr raw fb) 1 &&& MASK W fb lb
      = (operator_value_type W fb lb raw + 1) % 2 ^ (lb - fb + 1) := by
  unfold add shr
  rw [and_MASK_eq_mod hlW, Nat.mod_mod_of_dvd _ (Nat.pow_dvd_pow 2 (by omega)),
    value_eq_div_mod hlW, Nat.shiftRight_eq_div_pow, Nat.mod_add_mod]

/-- The value computed by pre-decrement, `((tmp >> first_bit) - 1) & MASK`. -/
theorem pre_dec_val {W fb lb : Nat} (hfl : fb ≤ lb) (hlW : lb < W) (raw : Nat) :
    sub W (shr raw fb) 1 &&& MASK W fb lb
      = (operator_value_type W fb lb raw + (2 ^ (lb - fb + 1) - 1)) % 2 ^ (lb - fb + 1) := by
  have hW1 : 1 < 2 ^ W := Nat.one_lt_two_pow (by omega)
  have hdvd : 2 ^ (lb - fb + 1) ∣ 2 ^ W := Nat.pow_dvd_pow 2 (by omega)
  obtain ⟨k, hk⟩ := hdvd
  have hm : 0 < 2 ^ (lb - fb + 1) := Nat.two_pow_pos _
  have hkpos : 0 < k := by
    rcases Nat.eq_zero_or_pos k with h0 | h0
    · rw [h0, Nat.mul_zero] at hk; omega
    · exact h0
  have e : 2 ^ W - 1 = 2 ^ (lb - fb + 1) - 1 + 2 ^ (lb - fb + 1) * (k - 1) := by
    rw [hk, Nat.mul_sub, Nat.mul_one]
    have : 2 ^ (lb - fb + 1) ≤ 2 ^ (lb - fb + 1) * k := Nat.le_mul_of_pos_right _ hkpos
    omega
  unfold sub shr
  rw [and_MASK_eq_mod hlW, Nat.mod_eq_of_lt hW1,
    Nat.mod_mod_of_dvd _ (Nat.pow_dvd_pow 2 (by omega)), value_eq_div_mod hlW,
    Nat.shiftRight_eq_div_pow, e, ← Nat.add_assoc, Nat.add_mul_mod_self_left,
    Nat.mod_add_mod]

theorem one_mod_window (fb lb : Nat) : 1 % 2 ^ (lb - fb + 1) = 1 :=
  Nat.mod_eq_of_lt (Nat.one_lt_two_pow (by omega))

/-- Refinement: the field read after a mutating operator is the field-level step applied to
the field read before it. -/
theorem value_run {W fb lb : Nat} (hfl : fb ≤ lb) (hlW : lb < W) (op : MutOp)
    (raw rhs : Nat) :
    (MutOp.run W fb lb op raw rhs).map (operator_value_type W fb lb)
      = field_step (lb - fb + 1) op (operator_value_type W fb lb raw) rhs := by
  cases op
  case assign => exact congrArg some (value_assign hfl hlW raw rhs)
  case add_assign => exact congrArg some (value_add hfl hlW raw rhs)
  case sub_assign => exact congrArg some (value_sub hfl hlW raw rhs)
  case mul_assign => exact congrArg some (value_mul hfl hlW raw rhs)
  case div_assign =>
    by_cases hr : rhs = 0
    · subst hr; rfl
    · show (_div W fb lb raw rhs).map _ = field_step _ MutOp.div_assign _ rhs
      rw [value_div_some hfl hlW raw hr]
      simp only [field_step, if_neg hr]
  case mod_assign =>
    by_cases hr : rhs = 0
    · subst hr; rfl
    · show (_mod W fb lb raw rhs).map _ = field_step _ MutOp.mod_assign _ rhs
      rw [value_mod_some hfl hlW raw hr]
      simp only [field_step, if_neg hr]
  case and_assign => exact congrArg some (value_and hfl hlW raw rhs)
  case or_assign => exact congrArg some (value_or hfl hlW raw rhs)
  case xor_assign => exact congrArg some (value_xor hfl hlW raw rhs)
  case shl_assign => exact congrArg some (value_shl_assign hfl hlW raw rhs)
  case shr_assign => exact congrArg some (value_shr_assign hfl hlW raw rhs)
  case pre_inc =>
    refine congrArg some ?_
    show operator_value_type W fb lb ((raw &&& bnot W (shl W (MASK W fb lb) fb))
      ||| shl W (add W (shr raw fb) 1 &&& MASK W fb lb) fb) = _
    rw [shl_and_MASK hlW, value_core hfl hlW, value_shl hfl hlW, ← and_MASK_eq_mod hlW,
      pre_inc_val hfl hlW]
  case post_inc => exact congrArg some (value_add hfl hlW raw 1)
  case pre_dec =>
    refine congrArg some ?_
    show operator_value_type W fb lb (_assign W fb lb raw
      (sub W (shr raw fb) 1 &&& MASK W fb lb)) = _
    rw [value_assign hfl hlW, pre_dec_val hfl hlW, Nat.mod_mod]
  case post_dec =>
    refine congrArg some ?_
    show operator_value_type W fb lb (_sub W fb lb raw 1) = _
    rw [value_sub hfl hlW, one_mod_window]

/-! ## Words, windows and bits -/

/-- The field value fixes the bits of the word inside the window. -/
theorem bits_of_value_eq {W fb lb : Nat} (hlW : lb < W) {a b : Nat}
    (h : operator_value_type W fb lb a = operator_value_type W fb lb b)
    (i : Nat) (h1 : fb ≤ i) (h2 : i ≤ lb) : a.testBit i = b.testBit i := by
  have hbit := congrArg (fun x => Nat.testBit x (i - fb)) h
  simp only [testBit_value hlW] at hbit
  have e : fb + (i - fb) = i := by omega
  have hj : decide (i - fb < lb - fb + 1) = true := decide_eq_true (by omega)
  rw [e, hj, Bool.and_true, Bool.and_true] at hbit
  exact hbit

/-- The bits of the word inside the window fix the field value. -/
theorem value_eq_of_bits {W fb lb : Nat} (hfl : fb ≤ lb) (hlW : lb < W) {a b : Nat}
    (h : ∀ i, fb ≤ i → i ≤ lb → a.testBit i = b.testBit i) :
    operator_value_type W fb lb a = operator_value_type W fb lb b := by
  apply Nat.eq_of_testBit_eq
  intro j
  rw [testBit_value hlW, testBit_value hlW]
  by_cases hj : j < lb - fb + 1
  · rw [h (fb + j) (by omega) (by omega)]
  · simp [hj]

/-- Two `W`-bit words with the same outer bits and the same field are equal. -/
theorem word_ext {W fb lb : Nat} (hfl : fb ≤ lb) (hlW : lb < W) {a b : Nat}
    (ha : a < 2 ^ W) (hb : b < 2 ^ W)
    (hout : a &&& bnot W (shl W (MASK W fb lb) fb) = b &&& bnot W (shl W (MASK W fb lb) fb))
    (hval : operator_value_type W fb lb a = operator_value_type W fb lb b) : a = b := by
  apply Nat.eq_of_testBit_eq
  intro i
  by_cases h1 : fb ≤ i
  · by_cases h2 : i ≤ lb
    · exact bits_of_value_eq hlW hval i h1 h2
    · exact outside_bits hfl hlW ha hb hout i (Or.inr (by omega))
  · exact outside_bits hfl hlW ha hb hout i (Or.inl (by omega))

/-- Isolation composes. -/
theorem Isolated.trans {W fb lb a b c : Nat} (h1 : Isolated W fb lb a b)
    (h2 : Isolated W fb lb b c) : Isolated W fb lb a c :=
  ⟨h2.1, h2.2.1.trans h1.2.1, fun i hi => (h2.2.2 i hi).trans (h1.2.2 i hi)⟩

theorem and_and_self (x m : Nat) : x &&& m &&& m = x &&& m := by
  rw [Nat.and_assoc, Nat.and_self]

/-- A volatile overload loads `_raw` once; when the plain operator has a result it stores
exactly that word once and returns what the plain operator returns, otherwise it stops after
the load. -/
theorem run_volatile_eq (W fb lb : Nat) (op : MutOp) (s : Storage) (rhs : Nat) :
    MutOp.run_volatile W fb lb op s rhs
      = match MutOp.run W fb lb op s.raw rhs with
        | some new =>
          Except.ok (Storage.mk new (s.log ++ [Access.load s.raw, Access.store new]),
            MutOp.returned W fb lb op s.raw)
        | none => Except.error (Storage.mk s.raw (s.log ++ [Access.load s.raw])) := by
  cases op
  case div_assign =>
    simp only [MutOp.run_volatile, MutOp.run, volatile_operator_div_assign,
      operator_div_assign, Storage.load]
    cases _div W fb lb s.raw rhs <;>
      simp [Storage.store, MutOp.returned, List.append_assoc]
  case mod_assign =>
    simp only [MutOp.run_volatile, MutOp.run, volatile_operator_mod_assign,
      operator_mod_assign, Storage.load]
    cases _mod W fb lb s.raw rhs <;>
      simp [Storage.store, MutOp.returned, List.append_assoc]
  case pre_inc =>
    simp [MutOp.run_volatile, MutOp.run, MutOp.returned, volatile_operator_pre_inc,
      operator_pre_inc, Storage.load, Storage.store, _assign, and_and_self]
  all_goals
    simp [MutOp.run_volatile, MutOp.run, MutOp.returned, Storage.load, Storage.store,
      volatile_operator_assign, volatile_operator_add_assign, volatile_operator_sub_assign,
      volatile_operator_mul_assign, volatile_operator_and_assign, volatile_operator_or_assign,
      volatile_operator_xor_assign, volatile_operator_shl_assign, volatile_operator_shr_assign,
      volatile_operator_post_inc, volatile_operator_pre_dec, volatile_operator_post_dec,
      operator_assign, operator_add_assign, operator_sub_assign, operator_mul_assign,
      operator_and_assign, operator_or_assign, operator_xor_assign, operator_shl_assign,
      operator_shr_assign, operator_post_inc, operator_pre_dec, operator_post_dec]

/-! ## The checked shifts against the total ones -/

theorem promoted_width_of_le {W : Nat} (hW : 32 ≤ W) : promoted_width W = W := by
  unfold promoted_width
  rw [if_neg (by omega)]

/-- For the full-width window of a storage type that is not promoted, the initializer of
`MASK` shifts by `W`: no defined result. -/
theorem MASK_checked_full_width {W : Nat} (hW : 32 ≤ W) : MASK_checked W 0 (W - 1) = none := by
  unfold MASK_checked shl_checked
  rw [NUM_BITS_eq (by omega), promoted_width_of_le hW]
  have e : W - 1 - 0 + 1 = W := by omega
  rw [e, if_neg (Nat.lt_irrefl W)]

/-- Every mutating operator other than `/= 0` and `%= 0` has a result in the total model. -/
theorem run_some (W fb lb : Nat) (op : MutOp) (raw rhs : Nat)
    (hz : op = MutOp.div_assign ∨ op = MutOp.mod_assign → rhs ≠ 0) :
    ∃ raw', MutOp.run W fb lb op raw rhs = some raw' := by
  cases op
  case div_assign => exact ⟨_, if_neg (hz (Or.inl rfl))⟩
  case mod_assign => exact ⟨_, if_neg (hz (Or.inr rfl))⟩
  all_goals exact ⟨_, rfl⟩

/-- On a storage type narrower than `int` every window has a defined `MASK` and a shift count
below 32 is defined: the checked operator is the total one. -/
theorem run_checked_promoted {W fb lb : Nat} (hW : W < 32) (hlW : lb < W) (op : MutOp)
    (raw rhs : Nat) (hs : op = MutOp.shl_assign ∨ op = MutOp.shr_assign → rhs < 32) :
    MutOp.run_checked W fb lb op raw rhs = MutOp.run W fb lb op raw rhs := by
  have hp : promoted_width W = 32 := by
    unfold promoted_width
    rw [if_pos hW]
  have hmask : MASK_checked W fb lb = some (MASK W fb lb) := by
    unfold MASK_checked shl_checked
    rw [NUM_BITS_eq hlW, hp, if_pos (by omega)]
    simp only [MASK, NUM_BITS_eq hlW]
  unfold MutOp.run_checked
  rw [hmask]
  cases op
  case shl_assign =>
    simp only [_shl_checked, shl_checked, hp, if_pos (hs (Or.inl rfl))]
    rfl
  case shr_assign =>
    simp only [_shr_checked, shr_checked, hp, if_pos (hs (Or.inr rfl))]
    rfl
  all_goals rfl

/-! ## Undoing a step -/

/-- Adding `r` and then its complement modulo `m` gives back a residue `x`. -/
theorem add_sub_residue {m x : Nat} (hx : x < m) (r : Nat) :
    (x + r + (m - r % m)) % m = x := by
  have hm : 0 < m := by omega
  have hr : r % m < m := Nat.mod_lt _ hm
  have hdiv : m * (r / m) + r % m = r := Nat.div_add_mod r m
  have e : x + r + (m - r % m) = x + m + m * (r / m) := by omega
  rw [e, Nat.add_mul_mod_self_left, Nat.add_mod_right, Nat.mod_eq_of_lt hx]

/-- Two successive operators whose field steps cancel give back the storage word. -/
theorem run_run_restore {W fb lb : Nat} (hfl : fb ≤ lb) (hlW : lb < W) {raw : Nat}
    (hraw : raw < 2 ^ W) (op1 op2 : MutOp) (rhs1 rhs2 : Nat) {r1 r2 : Nat}
    (h1 : MutOp.run W fb lb op1 raw rhs1 = some r1)
    (h2 : MutOp.run W fb lb op2 r1 rhs2 = some r2)
    (hz1 : op1 = MutOp.div_assign ∨ op1 = MutOp.mod_assign → rhs1 ≠ 0)
    (hz2 : op2 = MutOp.div_assign ∨ op2 = MutOp.mod_assign → rhs2 ≠ 0)
    (hval : operator_value_type W fb lb r2 = operator_value_type W fb lb raw) : r2 = raw := by
  obtain ⟨a, ha, hisoa⟩ := run_isolated hfl hlW hraw op1 rhs1 hz1
  rw [h1] at ha
  cases Option.some.inj ha
  obtain ⟨b, hb, hisob⟩ := run_isolated hfl hlW hisoa.1 op2 rhs2 hz2
  rw [h2] at hb
  cases Option.some.inj hb
  have hiso := Isolated.trans hisoa hisob
  exact word_ext hfl hlW hiso.1 hraw hiso.2.1 hval

/-! ## Claims -/

/-- C2 (read round-trip). For every valid window, every storage word `raw` and every operand
`v`, reading the field after `operator=(v)` returns `v & MASK`, which is `v` modulo
`2 ^ NUM_BITS`; the bits of `v` above the window width are discarded: the written word is the
one written for `v & MASK`, and it agrees with `raw` under `~(MASK << first_bit)`. -/
theorem C2_read_round_trip (W fb lb raw v : Nat) (hfl : fb ≤ lb) (hlW : lb < W) :
    operator_value_type W fb lb (operator_assign W fb lb raw v) = v &&& MASK W fb lb ∧
    v &&& MASK W fb lb = v % 2 ^ (lb - fb + 1) ∧
    operator_assign W fb lb raw v = operator_assign W fb lb raw (v &&& MASK W fb lb) ∧
    operator_assign W fb lb raw v &&& bnot W (shl W (MASK W fb lb) fb)
      = raw &&& bnot W (shl W (MASK W fb lb) fb) := by
  have hm : v &&& MASK W fb lb = v % 2 ^ (lb - fb + 1) := by
    rw [MASK_eq hlW, Nat.and_pow_two_sub_one_eq_mod]
  refine ⟨?_, hm, ?_, ?_⟩
  · unfold operator_assign _assign
    rw [shl_and_MASK hlW, value_core hfl hlW, value_shl hfl hlW, hm]
  · unfold operator_assign _assign
    rw [Nat.and_assoc, Nat.and_self]
  · unfold operator_assign _assign
    rw [shl_and_MASK hlW]
    exact frame_core hfl hlW raw _

/-- Witness of C2: assigning the out-of-range value `100` to the 6-bit window `[12, 17]`. -/
theorem C2_read_round_trip_witness :
    (12 ≤ 17 ∧ 17 < 32) ∧
    operator_value_type 32 12 17 (operator_assign 32 12 17 0xFFFFFFFF 100)
      = 100 &&& MASK 32 12 17 ∧
    100 &&& MASK 32 12 17 = 100 % 2 ^ (17 - 12 + 1) ∧
    operator_assign 32 12 17 0xFFFFFFFF 100
      = operator_assign 32 12 17 0xFFFFFFFF (100 &&& MASK 32 12 17) ∧
    operator_assign 32 12 17 0xFFFFFFFF 100 &&& bnot 32 (shl 32 (MASK 32 12 17) 12)
      = 0xFFFFFFFF &&& bnot 32 (shl 32 (MASK 32 12 17) 12) :=
  ⟨by decide, C2_read_round_trip 32 12 17 0xFFFFFFFF 100 (by decide) (by decide)⟩

/-- C3 (add wraps inside the window). For every valid window of width `w = NUM_BITS`, every
storage word `raw` with field value `x` and every operand `rhs`, after `operator+=(rhs)` the
field reads `(x + rhs) mod 2 ^ w`. The result depends on `raw` only through `x` (any `raw2`
with the same field gives the same new field), the written word agrees with `raw` under
`~(MASK << first_bit)`, and a field equal to `MASK` plus `1` reads `0`. -/
theorem C3_add_wraps (W fb lb raw rhs : Nat) (hfl : fb ≤ lb) (hlW : lb < W) :
    operator_value_type W fb lb (operator_add_assign W fb lb raw rhs)
      = (operator_value_type W fb lb raw + rhs) % 2 ^ (lb - fb + 1) ∧
    (∀ raw2, operator_value_type W fb lb raw2 = operator_value_type W fb lb raw →
      operator_value_type W fb lb (operator_add_assign W fb lb raw2 rhs)
        = operator_value_type W fb lb (operator_add_assign W fb lb raw rhs)) ∧
    operator_add_assign W fb lb raw rhs &&& bnot W (shl W (MASK W fb lb) fb)
      = raw &&& bnot W (shl W (MASK W fb lb) fb) ∧
    (operator_value_type W fb lb raw = MASK W fb lb →
      operator_value_type W fb lb (operator_add_assign W fb lb raw 1) = 0) := by
  have key : ∀ a r, operator_value_type W fb lb (operator_add_assign W fb lb a r)
      = (operator_value_type W fb lb a + r) % 2 ^ (lb - fb + 1) := by
    intro a r
    unfold operator_add_assign _add
    rw [value_core hfl hlW, value_add_shl hfl hlW]
  refine ⟨key raw rhs, ?_, frame_core hfl hlW raw _, ?_⟩
  · intro raw2 h2
    rw [key raw2 rhs, key raw rhs, h2]
  · intro hx
    rw [key raw 1, hx, MASK_eq hlW]
    have hpos : 0 < 2 ^ (lb - fb + 1) := Nat.two_pow_pos _
    have e : 2 ^ (lb - fb + 1) - 1 + 1 = 2 ^ (lb - fb + 1) := by omega
    rw [e, Nat.mod_self]

/-- Witness of C3: the window `[12, 17]` of `0xFFFFFFFF` holds `MASK = 63`; adding `1`. -/
theorem C3_add_wraps_witness :
    (12 ≤ 17 ∧ 17 < 32) ∧
    operator_value_type 32 12 17 (operator_add_assign 32 12 17 0xFFFFFFFF 1)
      = (operator_value_type 32 12 17 0xFFFFFFFF + 1) % 2 ^ (17 - 12 + 1) ∧
    (∀ raw2, operator_value_type 32 12 17 raw2 = operator_value_type 32 12 17 0xFFFFFFFF →
      operator_value_type 32 12 17 (operator_add_assign 32 12 17 raw2 1)
        = operator_value_type 32 12 17 (operator_add_assign 32 12 17 0xFFFFFFFF 1)) ∧
    operator_add_assign 32 12 17 0xFFFFFFFF 1 &&& bnot 32 (shl 32 (MASK 32 12 17) 12)
      = 0xFFFFFFFF &&& bnot 32 (shl 32 (MASK 32 12 17) 12) ∧
    (operator_value_type 32 12 17 0xFFFFFFFF = MASK 32 12 17 →
      operator_value_type 32 12 17 (operator_add_assign 32 12 17 0xFFFFFFFF 1) = 0) :=
  ⟨by decide, C3_add_wraps 32 12 17 0xFFFFFFFF 1 (by decide) (by decide)⟩

/-- C4 (sub wraps inside the window). For every valid window of width `w = NUM_BITS`, every
storage word `raw` with field value `x` and every operand `rhs`, after `operator-=(rhs)` the
field reads `(x - rhs) mod 2 ^ w`, stated both as the integer residue and as the natural
number `(x + (2 ^ w - rhs mod 2 ^ w)) mod 2 ^ w`. The result depends on `raw` only through
`x`, the written word agrees with `raw` under `~(MASK << first_bit)`, and a field equal to
`0` minus `1` reads `MASK`. -/
theorem C4_sub_wraps (W fb lb raw rhs : Nat) (hfl : fb ≤ lb) (hlW : lb < W) :
    ((operator_value_type W fb lb (operator_sub_assign W fb lb raw rhs) : Nat) : Int)
      = ((operator_value_type W fb lb raw : Int) - (rhs : Int))
          % ((2 ^ (lb - fb + 1) : Nat) : Int) ∧
    operator_value_type W fb lb (operator_sub_assign W fb lb raw rhs)
      = (operator_value_type W fb lb raw + (2 ^ (lb - fb + 1) - rhs % 2 ^ (lb - fb + 1)))
          % 2 ^ (lb - fb + 1) ∧
    (∀ raw2, operator_value_type W fb lb raw2 = operator_value_type W fb lb raw →
      operator_value_type W fb lb (operator_sub_assign W fb lb raw2 rhs)
        = operator_value_type W fb lb (operator_sub_assign W fb lb raw rhs)) ∧
    operator_sub_assign W fb lb raw rhs &&& bnot W (shl W (MASK W fb lb) fb)
      = raw &&& bnot W (shl W (MASK W fb lb) fb) ∧
    (operator_value_type W fb lb raw = 0 →
      operator_value_type W fb lb (operator_sub_assign W fb lb raw 1) = MASK W fb lb) := by
  have key : ∀ a r, operator_value_type W fb lb (operator_sub_assign W fb lb a r)
      = (operator_value_type W fb lb a + (2 ^ (lb - fb + 1) - r % 2 ^ (lb - fb + 1)))
          % 2 ^ (lb - fb + 1) := by
    intro a r
    have hback := value_sub_shl_add hfl hlW a r
    have hv : operator_value_type W fb lb (sub W a (shl W r fb)) < 2 ^ (lb - fb + 1) :=
      value_lt hlW _
    unfold operator_sub_assign _sub
    rw [value_core hfl hlW]
    exact (residue_of_add_back hv hback).2
  refine ⟨?_, key raw rhs, ?_, frame_core hfl hlW raw _, ?_⟩
  · have hback := value_sub_shl_add hfl hlW raw rhs
    have hv : operator_value_type W fb lb (sub W raw (shl W rhs fb)) < 2 ^ (lb - fb + 1) :=
      value_lt hlW _
    unfold operator_sub_assign _sub
    rw [value_core hfl hlW]
    exact (residue_of_add_back hv hback).1
  · intro raw2 h2
    rw [key raw2 rhs, key raw rhs, h2]
  · intro hx
    rw [key raw 1, hx, MASK_eq hlW, Nat.zero_add]
    have hlt : 1 < 2 ^ (lb - fb + 1) := Nat.one_lt_two_pow (by omega)
    rw [Nat.mod_eq_of_lt hlt]
    exact Nat.mod_eq_of_lt (by omega)

/-- Witness of C4: the window `[12, 17]` of `0xFFFC0FFF` holds `0`; subtracting `1`. -/
theorem C4_sub_wraps_witness :
    (12 ≤ 17 ∧ 17 < 32) ∧
    operator_value_type 32 12 17 (operator_sub_assign 32 12 17 0xFFFC0FFF 1)
      = MASK 32 12 17 :=
  ⟨by decide,
    (C4_sub_wraps 32 12 17 0xFFFC0FFF 1 (by decide) (by decide)).2.2.2.2 (by decide)⟩

/-- C5 (division). For every valid window (any `first_bit`), every storage word `raw` with
field value `x` and every operand `rhs != 0`, `operator/=(rhs)` writes a word whose field
reads `x / rhs` (integer quotient), although `_div` divides the field in its shifted
position: `((x << first_bit) / rhs >> first_bit) & MASK = x / rhs`. -/
theorem C5_div_quotient (W fb lb raw rhs : Nat) (hfl : fb ≤ lb) (hlW : lb < W)
    (hrhs : rhs ≠ 0) :
    (∃ raw', operator_div_assign W fb lb raw rhs = some raw' ∧
      operator_value_type W fb lb raw' = operator_value_type W fb lb raw / rhs) ∧
    shr (shl W (operator_value_type W fb lb raw) fb / rhs) fb &&& MASK W fb lb
      = operator_value_type W fb lb raw / rhs := by
  have hx : operator_value_type W fb lb raw < 2 ^ (lb - fb + 1) := value_lt hlW raw
  constructor
  · refine ⟨_, if_neg hrhs, ?_⟩
    rw [value_core hfl hlW, and_window_eq hfl hlW, value_div hlW hx]
  · rw [shl_of_lt hfl hlW hx]
    exact value_div hlW hx

/-- Witness of C5: the field `[12, 17]` of `0xABCC6F01` holds `6`; dividing by `3` reads `2`. -/
theorem C5_div_quotient_witness :
    (12 ≤ 17 ∧ 17 < 32 ∧ 3 ≠ 0 ∧ operator_value_type 32 12 17 0xABCC6F01 = 6) ∧
    (∃ raw', operator_div_assign 32 12 17 0xABCC6F01 3 = some raw' ∧
      operator_value_type 32 12 17 raw' = operator_value_type 32 12 17 0xABCC6F01 / 3) ∧
    shr (shl 32 (operator_value_type 32 12 17 0xABCC6F01) 12 / 3) 12 &&& MASK 32 12 17
      = operator_value_type 32 12 17 0xABCC6F01 / 3 :=
  ⟨by decide, C5_div_quotient 32 12 17 0xABCC6F01 3 (by decide) (by decide) (by decide)⟩

/-- C6 (modulo). For every valid window, every storage word `raw` with field value `x` and
every operand `rhs != 0`, `operator%=(rhs)` writes a word whose field reads `x mod rhs`; the
remainder is at most `x`, hence at most `MASK`, so the unmasked re-shift in `_mod` stays in
the window: the written word agrees with `raw` under `~(MASK << first_bit)`. -/
theorem C6_mod_remainder (W fb lb raw rhs : Nat) (hfl : fb ≤ lb) (hlW : lb < W)
    (hrhs : rhs ≠ 0) :
    ∃ raw', operator_mod_assign W fb lb raw rhs = some raw' ∧
      operator_value_type W fb lb raw' = operator_value_type W fb lb raw % rhs ∧
      operator_value_type W fb lb raw % rhs ≤ operator_value_type W fb lb raw ∧
      operator_value_type W fb lb raw ≤ MASK W fb lb ∧
      raw' &&& bnot W (shl W (MASK W fb lb) fb) = raw &&& bnot W (shl W (MASK W fb lb) fb) := by
  have hle : operator_value_type W fb lb raw % rhs ≤ MASK W fb lb :=
    Nat.le_trans (Nat.mod_le _ _) Nat.and_le_right
  have hform : (raw &&& bnot W (shl W (MASK W fb lb) fb))
        ||| shl W ((shr raw fb &&& MASK W fb lb) % rhs) fb
      = (raw &&& bnot W (shl W (MASK W fb lb) fb))
        ||| (shl W (operator_value_type W fb lb raw % rhs) fb &&& shl W (MASK W fb lb) fb) := by
    rw [← shl_and_MASK hlW, and_MASK_of_le hlW hle]
    rfl
  refine ⟨_, if_neg hrhs, ?_, Nat.mod_le _ _, Nat.and_le_right, ?_⟩
  · rw [hform, value_core hfl hlW, value_shl hfl hlW]
    exact Nat.mod_eq_of_lt
      (Nat.lt_of_le_of_lt (Nat.mod_le _ _) (value_lt hlW raw))
  · rw [hform]
    exact frame_core hfl hlW raw _

/-- Witness of C6: the field `[12, 17]` of `0xABCC7F01` holds `7`; modulo `3` reads `1`. -/
theorem C6_mod_remainder_witness :
    (12 ≤ 17 ∧ 17 < 32 ∧ 3 ≠ 0 ∧ operator_value_type 32 12 17 0xABCC7F01 = 7 ∧ 7 % 3 = 1) ∧
    ∃ raw', operator_mod_assign 32 12 17 0xABCC7F01 3 = some raw' ∧
      operator_value_type 32 12 17 raw' = operator_value_type 32 12 17 0xABCC7F01 % 3 ∧
      operator_value_type 32 12 17 0xABCC7F01 % 3 ≤ operator_value_type 32 12 17 0xABCC7F01 ∧
      operator_value_type 32 12 17 0xABCC7F01 ≤ MASK 32 12 17 ∧
      raw' &&& bnot 32 (shl 32 (MASK 32 12 17) 12)
        = 0xABCC7F01 &&& bnot 32 (shl 32 (MASK 32 12 17) 12) :=
  ⟨by decide, C6_mod_remainder 32 12 17 0xABCC7F01 3 (by decide) (by decide) (by decide)⟩

/-- C7 (multiplication wraps inside the window). For every valid window of width
`w = NUM_BITS`, every storage word `raw` with field value `x` and every operand `rhs`, after
`operator*=(rhs)` the field reads `(x * rhs) mod 2 ^ w`, although the product is formed on
the field in its shifted position and truncated to `W` bits. -/
theorem C7_mul_wraps (W fb lb raw rhs : Nat) (hfl : fb ≤ lb) (hlW : lb < W) :
    operator_value_type W fb lb (operator_mul_assign W fb lb raw rhs)
      = (operator_value_type W fb lb raw * rhs) % 2 ^ (lb - fb + 1) := by
  unfold operator_mul_assign _mul mul
  rw [value_core hfl hlW, value_mod hfl hlW, and_window_eq hfl hlW,
    Nat.mul_right_comm, value_mul_pow hlW]

/-- Witness of C7: the field `[12, 17]` of `0xFFFFFFFF` holds `63`; times `0xFFFFFFFF` the
shifted product overflows 32 bits and the field reads `63 * 0xFFFFFFFF mod 64 = 1`. -/
theorem C7_mul_wraps_witness :
    (12 ≤ 17 ∧ 17 < 32 ∧ 2 ^ 32 < 63 * 2 ^ 12 * 0xFFFFFFFF) ∧
    operator_value_type 32 12 17 (operator_mul_assign 32 12 17 0xFFFFFFFF 0xFFFFFFFF)
      = (operator_value_type 32 12 17 0xFFFFFFFF * 0xFFFFFFFF) % 2 ^ (17 - 12 + 1) :=
  ⟨by decide, C7_mul_wraps 32 12 17 0xFFFFFFFF 0xFFFFFFFF (by decide) (by decide)⟩

/-- C8 (left shift is contained in the window). For every valid window of width
`w = NUM_BITS`, every storage word `raw` with field value `x` and every shift count `rhs`
smaller than the storage bit width `W`, after `operator<<=(rhs)` the field reads
`(x << rhs) mod 2 ^ w`; hence it reads `0` whenever `w <= rhs`, and the written word agrees
with `raw` under `~(MASK << first_bit)` (nothing is carried into the neighbouring bits). -/
theorem C8_shl_contained (W fb lb raw rhs : Nat) (hfl : fb ≤ lb) (hlW : lb < W)
    (_hrhs : rhs < W) :
    operator_value_type W fb lb (operator_shl_assign W fb lb raw rhs)
      = (operator_value_type W fb lb raw <<< rhs) % 2 ^ (lb - fb + 1) ∧
    (lb - fb + 1 ≤ rhs →
      operator_value_type W fb lb (operator_shl_assign W fb lb raw rhs) = 0) ∧
    operator_shl_assign W fb lb raw rhs &&& bnot W (shl W (MASK W fb lb) fb)
      = raw &&& bnot W (shl W (MASK W fb lb) fb) := by
  have key : operator_value_type W fb lb (operator_shl_assign W fb lb raw rhs)
      = (operator_value_type W fb lb raw <<< rhs) % 2 ^ (lb - fb + 1) := by
    unfold operator_shl_assign _shl
    rw [value_core hfl hlW, shl_def W (raw &&& shl W (MASK W fb lb) fb) rhs,
      value_mod hfl hlW, and_window_eq hfl hlW, Nat.mul_right_comm, value_mul_pow hlW,
      Nat.shiftLeft_eq]
  refine ⟨key, ?_, frame_core hfl hlW raw _⟩
  intro hw
  rw [key, Nat.shiftLeft_eq]
  exact Nat.mod_eq_zero_of_dvd
    (Dvd.dvd.mul_left (Nat.pow_dvd_pow 2 hw) _)

/-- Witness of C8: the field `[12, 17]` (width `6`) of `0xFFFC1FFF` holds `1`; shifted left
by `6` it reads `0`. -/
theorem C8_shl_contained_witness :
    (12 ≤ 17 ∧ 17 < 32 ∧ 6 < 32 ∧ operator_value_type 32 12 17 0xFFFC1FFF = 1) ∧
    operator_value_type 32 12 17 (operator_shl_assign 32 12 17 0xFFFC1FFF 6) = 0 :=
  ⟨by decide,
    (C8_shl_contained 32 12 17 0xFFFC1FFF 6 (by decide) (by decide) (by decide)).2.1
      (by decide)⟩

/-- C9 (right shift is contained in the window). For every valid window, every storage
word `raw` with field value `x` and every shift count `rhs` smaller than the storage bit
width `W`, after `operator>>=(rhs)` the field reads `x >> rhs`, that is `x / 2 ^ rhs`; the
result depends on `raw` only through `x` (bits of `raw` above the window are never shifted
into the field), and the written word agrees with `raw` under `~(MASK << first_bit)`. -/
theorem C9_shr_contained (W fb lb raw rhs : Nat) (hfl : fb ≤ lb) (hlW : lb < W)
    (_hrhs : rhs < W) :
    operator_value_type W fb lb (operator_shr_assign W fb lb raw rhs)
      = operator_value_type W fb lb raw >>> rhs ∧
    operator_value_type W fb lb raw >>> rhs = operator_value_type W fb lb raw / 2 ^ rhs ∧
    (∀ raw2, operator_value_type W fb lb raw2 = operator_value_type W fb lb raw →
      operator_value_type W fb lb (operator_shr_assign W fb lb raw2 rhs)
        = operator_value_type W fb lb (operator_shr_assign W fb lb raw rhs)) ∧
    operator_shr_assign W fb lb raw rhs &&& bnot W (shl W (MASK W fb lb) fb)
      = raw &&& bnot W (shl W (MASK W fb lb) fb) := by
  have key : ∀ a, operator_value_type W fb lb (operator_shr_assign W fb lb a rhs)
      = operator_value_type W fb lb a >>> rhs := by
    intro a
    unfold operator_shr_assign _shr shr
    rw [value_core hfl hlW, and_window_eq hfl hlW, Nat.shiftRight_eq_div_pow,
      Nat.shiftRight_eq_div_pow]
    exact value_div hlW (value_lt hlW a)
  refine ⟨key raw, Nat.shiftRight_eq_div_pow _ _, ?_, frame_core hfl hlW raw _⟩
  intro raw2 h2
  rw [key raw2, key raw, h2]

/-- Witness of C9: the field `[12, 17]` of `0xFFFFFFFF` holds `63`; shifted right by `2` it
reads `15` although every bit above the window is set. -/
theorem C9_shr_contained_witness :
    (12 ≤ 17 ∧ 17 < 32 ∧ 2 < 32 ∧ operator_value_type 32 12 17 0xFFFFFFFF >>> 2 = 15) ∧
    operator_value_type 32 12 17 (operator_shr_assign 32 12 17 0xFFFFFFFF 2)
      = operator_value_type 32 12 17 0xFFFFFFFF >>> 2 :=
  ⟨by decide,
    (C9_shr_contained 32 12 17 0xFFFFFFFF 2 (by decide) (by decide) (by decide)).1⟩

/-- C10 (bitwise operators act on the window with the low bits of `rhs`). For every valid
window, every storage word `raw` with field value `x` and every operand `rhs` (also with bits
set above the window width), after `operator&=(rhs)` the field reads `x & (rhs & MASK)`,
after `operator|=(rhs)` it reads `x | (rhs & MASK)` and after `operator^=(rhs)` it reads
`x ^ (rhs & MASK)`. -/
theorem C10_bitwise_window (W fb lb raw rhs : Nat) (hfl : fb ≤ lb) (hlW : lb < W) :
    operator_value_type W fb lb (operator_and_assign W fb lb raw rhs)
      = operator_value_type W fb lb raw &&& (rhs &&& MASK W fb lb) ∧
    operator_value_type W fb lb (operator_or_assign W fb lb raw rhs)
      = operator_value_type W fb lb raw ||| (rhs &&& MASK W fb lb) ∧
    operator_value_type W fb lb (operator_xor_assign W fb lb raw rhs)
      = operator_value_type W fb lb raw ^^^ (rhs &&& MASK W fb lb) := by
  refine ⟨?_, ?_, ?_⟩
  · unfold operator_and_assign _and
    apply Nat.eq_of_testBit_eq
    intro j
    simp only [testBit_value hlW, Nat.testBit_and, Nat.testBit_or, testBit_outside hfl hlW,
      testBit_shl, testBit_MASK hlW]
    by_cases hj : j < lb - fb + 1
    · have h1 : fb ≤ fb + j := by omega
      have h2 : fb + j ≤ lb := by omega
      have h3 : fb + j < W := by omega
      simp [hj, h1, h2, h3]
    · simp [hj]
  · unfold operator_or_assign _or
    apply Nat.eq_of_testBit_eq
    intro j
    simp only [testBit_value hlW, Nat.testBit_and, Nat.testBit_or, testBit_shl,
      testBit_MASK hlW]
    by_cases hj : j < lb - fb + 1
    · have h1 : fb ≤ fb + j := by omega
      have h3 : fb + j < W := by omega
      simp [hj, h1, h3]
    · simp [hj]
  · unfold operator_xor_assign _xor
    apply Nat.eq_of_testBit_eq
    intro j
    simp only [testBit_value hlW, Nat.testBit_and, Nat.testBit_xor, testBit_shl,
      testBit_MASK hlW]
    by_cases hj : j < lb - fb + 1
    · have h1 : fb ≤ fb + j := by omega
      have h3 : fb + j < W := by omega
      simp [hj, h1, h3]
    · simp [hj]

/-- Witness of C10: window `[12, 17]` of `0xABCDEF01` (field `30`) with the operand
`0xFFFFFFF5`, whose bits above the window width are all set. -/
theorem C10_bitwise_window_witness :
    (12 ≤ 17 ∧ 17 < 32 ∧ operator_value_type 32 12 17 0xABCDEF01 = 30
      ∧ 0xFFFFFFF5 &&& MASK 32 12 17 = 53) ∧
    operator_value_type 32 12 17 (operator_and_assign 32 12 17 0xABCDEF01 0xFFFFFFF5)
      = operator_value_type 32 12 17 0xABCDEF01 &&& (0xFFFFFFF5 &&& MASK 32 12 17) ∧
    operator_value_type 32 12 17 (operator_or_assign 32 12 17 0xABCDEF01 0xFFFFFFF5)
      = operator_value_type 32 12 17 0xABCDEF01 ||| (0xFFFFFFF5 &&& MASK 32 12 17) ∧
    operator_value_type 32 12 17 (operator_xor_assign 32 12 17 0xABCDEF01 0xFFFFFFF5)
      = operator_value_type 32 12 17 0xABCDEF01 ^^^ (0xFFFFFFF5 &&& MASK 32 12 17) :=
  ⟨by decide, C10_bitwise_window 32 12 17 0xABCDEF01 0xFFFFFFF5 (by decide) (by decide)⟩

/-- C11 (increment and decrement). For every valid window of width `w = NUM_BITS` and every
storage word `raw` with field value `x`: pre-increment returns `(x + 1) mod 2 ^ w`,
post-increment returns `x`, and both leave the field equal to `(x + 1) mod 2 ^ w`;
pre-decrement returns `(x - 1) mod 2 ^ w` (as an integer residue, and as the natural number
`(x + (2 ^ w - 1)) mod 2 ^ w`), post-decrement returns `x`, and both leave the field equal to
`(x - 1) mod 2 ^ w`; so `MASK` increments to `0` and `0` decrements to `MASK`. -/
theorem C11_inc_dec (W fb lb raw : Nat) (hfl : fb ≤ lb) (hlW : lb < W) :
    (operator_pre_inc W fb lb raw).1
      = (operator_value_type W fb lb raw + 1) % 2 ^ (lb - fb + 1) ∧
    (operator_post_inc W fb lb raw).1 = operator_value_type W fb lb raw ∧
    operator_value_type W fb lb (operator_pre_inc W fb lb raw).2
      = (operator_value_type W fb lb raw + 1) % 2 ^ (lb - fb + 1) ∧
    operator_value_type W fb lb (operator_post_inc W fb lb raw).2
      = (operator_value_type W fb lb raw + 1) % 2 ^ (lb - fb + 1) ∧
    (((operator_pre_dec W fb lb raw).1 : Nat) : Int)
      = ((operator_value_type W fb lb raw : Int) - 1) % ((2 ^ (lb - fb + 1) : Nat) : Int) ∧
    (operator_pre_dec W fb lb raw).1
      = (operator_value_type W fb lb raw + (2 ^ (lb - fb + 1) - 1)) % 2 ^ (lb - fb + 1) ∧
    (operator_post_dec W fb lb raw).1 = operator_value_type W fb lb raw ∧
    operator_value_type W fb lb (operator_pre_dec W fb lb raw).2
      = (operator_pre_dec W fb lb raw).1 ∧
    operator_value_type W fb lb (operator_post_dec W fb lb raw).2
      = (operator_pre_dec W fb lb raw).1 ∧
    (operator_value_type W fb lb raw = MASK W fb lb →
      operator_value_type W fb lb (operator_pre_inc W fb lb raw).2 = 0 ∧
      operator_value_type W fb lb (operator_post_inc W fb lb raw).2 = 0) ∧
    (operator_value_type W fb lb raw = 0 →
      operator_value_type W fb lb (operator_pre_dec W fb lb raw).2 = MASK W fb lb ∧
      operator_value_type W fb lb (operator_post_dec W fb lb raw).2 = MASK W fb lb) := by
  have hm : 1 < 2 ^ (lb - fb + 1) := Nat.one_lt_two_pow (by omega)
  have hx : operator_value_type W fb lb raw < 2 ^ (lb - fb + 1) := value_lt hlW raw
  have hpre_inc := Option.some.inj (value_run hfl hlW MutOp.pre_inc raw 0)
  have hpost_inc := Option.some.inj (value_run hfl hlW MutOp.post_inc raw 0)
  have hpre_dec := Option.some.inj (value_run hfl hlW MutOp.pre_dec raw 0)
  have hpost_dec := Option.some.inj (value_run hfl hlW MutOp.post_dec raw 0)
  have hdec1 : (operator_pre_dec W fb lb raw).1
      = (operator_value_type W fb lb raw + (2 ^ (lb - fb + 1) - 1)) % 2 ^ (lb - fb + 1) :=
    pre_dec_val hfl hlW raw
  have hback : ((operator_value_type W fb lb raw + (2 ^ (lb - fb + 1) - 1)) % 2 ^ (lb - fb + 1)
      + 1) % 2 ^ (lb - fb + 1) = operator_value_type W fb lb raw := by
    rw [Nat.mod_add_mod]
    have e : operator_value_type W fb lb raw + (2 ^ (lb - fb + 1) - 1) + 1
        = operator_value_type W fb lb raw + 2 ^ (lb - fb + 1) := by omega
    rw [e, Nat.add_mod_right, Nat.mod_eq_of_lt hx]
  refine ⟨pre_inc_val hfl hlW raw, rfl, hpre_inc, hpost_inc, ?_, hdec1, rfl, ?_, ?_, ?_, ?_⟩
  · rw [hdec1]
    exact (residue_of_add_back (Nat.mod_lt _ (by omega)) hback).1
  · rw [hdec1]; exact hpre_dec
  · rw [hdec1]; exact hpost_dec
  · intro hmask
    have e : MASK W fb lb + 1 = 2 ^ (lb - fb + 1) := by
      rw [MASK_eq hlW]; omega
    constructor
    · rw [hpre_inc, hmask, e, Nat.mod_self]
    · rw [hpost_inc, hmask, e, Nat.mod_self]
  · intro hzero
    have e : (0 + (2 ^ (lb - fb + 1) - 1)) % 2 ^ (lb - fb + 1) = MASK W fb lb := by
      rw [MASK_eq hlW, Nat.zero_add]
      exact Nat.mod_eq_of_lt (by omega)
    constructor
    · rw [hpre_dec, hzero]; exact e
    · rw [hpost_dec, hzero]; exact e

/-- Witness of C11: the field `[12, 17]` of `0xABCC5F01` holds `5`; pre-increment returns `6`,
post-increment returns `5`, each leaves `6`. -/
theorem C11_inc_dec_witness :
    (12 ≤ 17 ∧ 17 < 32 ∧ operator_value_type 32 12 17 0xABCC5F01 = 5
      ∧ (5 + 1) % 2 ^ (17 - 12 + 1) = 6) ∧
    (operator_pre_inc 32 12 17 0xABCC5F01).1
      = (operator_value_type 32 12 17 0xABCC5F01 + 1) % 2 ^ (17 - 12 + 1) ∧
    (operator_post_inc 32 12 17 0xABCC5F01).1 = operator_value_type 32 12 17 0xABCC5F01 ∧
    operator_value_type 32 12 17 (operator_pre_inc 32 12 17 0xABCC5F01).2
      = (operator_value_type 32 12 17 0xABCC5F01 + 1) % 2 ^ (17 - 12 + 1) ∧
    operator_value_type 32 12 17 (operator_post_inc 32 12 17 0xABCC5F01).2
      = (operator_value_type 32 12 17 0xABCC5F01 + 1) % 2 ^ (17 - 12 + 1) :=
  ⟨by decide,
    (C11_inc_dec 32 12 17 0xABCC5F01 (by decide) (by decide)).1,
    (C11_inc_dec 32 12 17 0xABCC5F01 (by decide) (by decide)).2.1,
    (C11_inc_dec 32 12 17 0xABCC5F01 (by decide) (by decide)).2.2.1,
    (C11_inc_dec 32 12 17 0xABCC5F01 (by decide) (by decide)).2.2.2.1⟩

/-- C13 (the constant `MASK` at the full-width window). The static assertions accept
`bitfield<uint32_t, 0, 31>` and `bitfield<uint64_t, 0, 63>`, but there the initializer
`(static_cast<value_type>(1) << NUM_BITS) - 1` shifts by the full width of `value_type`, for
which the language defines no result; for the narrower window `[12, 17]` of `testbed.cpp` the
initializer is defined and yields `2 ^ 6 - 1 = 63`. -/
theorem C13_mask_full_width_undefined :
    (0 ≤ 31 ∧ 31 < 32 ∧ NUM_BITS 32 0 31 = 32 ∧ MASK_checked 32 0 31 = none) ∧
    (0 ≤ 63 ∧ 63 < 64 ∧ NUM_BITS 64 0 63 = 64 ∧ MASK_checked 64 0 63 = none) ∧
    MASK_checked 32 12 17 = some (2 ^ (17 - 12 + 1) - 1) := by
  decide

/-- C17 (the duplicated operator families agree). For every window, every storage word `raw`
(with any access log) and every operand `rhs`: (a) the volatile overload of each operator of
`bitfield.hpp` loads `raw`, stores exactly the word the non-volatile operator writes and
returns exactly what it returns (both have no result for `/= 0` and `%= 0`), and the two
conversion operators read the same value; (b) each operator of the draft class of
`testbed.cpp`, non-volatile and volatile, writes the same word and returns the same value as
the corresponding operator of `bitfield.hpp`. -/
theorem C17_families_agree (W fb lb raw rhs : Nat) (log : List Access) (op : MutOp) :
    (MutOp.run_volatile W fb lb op (Storage.mk raw log) rhs
      = match MutOp.run W fb lb op raw rhs with
        | some new =>
          Except.ok (Storage.mk new (log ++ [Access.load raw, Access.store new]),
            MutOp.returned W fb lb op raw)
        | none => Except.error (Storage.mk raw (log ++ [Access.load raw]))) ∧
    (volatile_operator_value_type W fb lb (Storage.mk raw log)).1
      = operator_value_type W fb lb raw ∧
    testbed.run W fb lb op raw rhs = MutOp.run W fb lb op raw rhs ∧
    testbed.returned W fb lb op raw = MutOp.returned W fb lb op raw ∧
    testbed.run_volatile W fb lb op (Storage.mk raw log) rhs
      = MutOp.run_volatile W fb lb op (Storage.mk raw log) rhs ∧
    testbed.operator_nv_type W fb lb raw = operator_value_type W fb lb raw ∧
    testbed.volatile_operator_nv_type W fb lb (Storage.mk raw log)
      = volatile_operator_value_type W fb lb (Storage.mk raw log) := by
  have hmask : testbed.MASK W fb lb = MASK W fb lb := rfl
  refine ⟨run_volatile_eq W fb lb op (Storage.mk raw log) rhs, rfl, ?_, ?_, ?_, rfl, rfl⟩
  · cases op
    case pre_dec =>
      simp [testbed.run, MutOp.run, testbed.operator_pre_dec, operator_pre_dec, _assign, hmask, and_and_self]
    all_goals rfl
  · cases op <;> rfl
  · cases op
    case pre_inc =>
      simp [testbed.run_volatile, MutOp.run_volatile, testbed.volatile_operator_pre_inc,
        volatile_operator_pre_inc, _assign, hmask, and_and_self]
    case pre_dec =>
      simp [testbed.run_volatile, MutOp.run_volatile, testbed.volatile_operator_pre_dec,
        volatile_operator_pre_dec, _assign, hmask, and_and_self]
    all_goals rfl

/-- C18 (two-run noninterference). For every valid window, every operand `rhs` (non-zero for
`/=` and `%=`, below the storage bit width for `<<=` and `>>=`) and every two storage words
`raw1`, `raw2` with equal bits inside `[first_bit, last_bit]`, each mutating operator has a
result on both words, the two results have equal bits inside `[first_bit, last_bit]` (equal
fields), and the values returned by `++` and `--` are equal. -/
theorem C18_noninterference (W fb lb raw1 raw2 rhs : Nat) (op : MutOp)
    (hfl : fb ≤ lb) (hlW : lb < W)
    (hbits : ∀ i, fb ≤ i → i ≤ lb → raw1.testBit i = raw2.testBit i)
    (hz : op = MutOp.div_assign ∨ op = MutOp.mod_assign → rhs ≠ 0)
    (_hs : op = MutOp.shl_assign ∨ op = MutOp.shr_assign → rhs < W) :
    ∃ r1 r2, MutOp.run W fb lb op raw1 rhs = some r1 ∧
      MutOp.run W fb lb op raw2 rhs = some r2 ∧
      (∀ i, fb ≤ i → i ≤ lb → r1.testBit i = r2.testBit i) ∧
      operator_value_type W fb lb r1 = operator_value_type W fb lb r2 ∧
      MutOp.returned W fb lb op raw1 = MutOp.returned W fb lb op raw2 := by
  have hval : operator_value_type W fb lb raw1 = operator_value_type W fb lb raw2 :=
    value_eq_of_bits hfl hlW hbits
  obtain ⟨r1, h1⟩ := run_some W fb lb op raw1 rhs hz
  obtain ⟨r2, h2⟩ := run_some W fb lb op raw2 rhs hz
  have hv1 := value_run hfl hlW op raw1 rhs
  have hv2 := value_run hfl hlW op raw2 rhs
  rw [h1] at hv1
  rw [h2, ← hval, ← hv1] at hv2
  have hres : operator_value_type W fb lb r1 = operator_value_type W fb lb r2 :=
    (Option.some.inj hv2).symm
  refine ⟨r1, r2, h1, h2, bits_of_value_eq hlW hres, hres, ?_⟩
  cases op
  case pre_inc =>
    show some (add W (shr raw1 fb) 1 &&& MASK W fb lb)
      = some (add W (shr raw2 fb) 1 &&& MASK W fb lb)
    rw [pre_inc_val hfl hlW, pre_inc_val hfl hlW, hval]
  case post_inc => exact congrArg some hval
  case pre_dec =>
    show some (sub W (shr raw1 fb) 1 &&& MASK W fb lb)
      = some (sub W (shr raw2 fb) 1 &&& MASK W fb lb)
    rw [pre_dec_val hfl hlW, pre_dec_val hfl hlW, hval]
  case post_dec => exact congrArg some hval
  all_goals rfl

/-- Witness of C18: `0xABCDEF01` and `0x0001E000` agree on the window `[12, 17]` (field `30`)
and differ elsewhere; the operator is `/= 7`. -/
theorem C18_noninterference_witness :
    (12 ≤ 17 ∧ 17 < 32 ∧ 7 ≠ 0 ∧ 0xABCDEF01 ≠ 0x0001E000) ∧
    ∃ r1 r2, MutOp.run 32 12 17 MutOp.div_assign 0xABCDEF01 7 = some r1 ∧
      MutOp.run 32 12 17 MutOp.div_assign 0x0001E000 7 = some r2 ∧
      (∀ i, 12 ≤ i → i ≤ 17 → r1.testBit i = r2.testBit i) ∧
      operator_value_type 32 12 17 r1 = operator_value_type 32 12 17 r2 ∧
      MutOp.returned 32 12 17 MutOp.div_assign 0xABCDEF01
        = MutOp.returned 32 12 17 MutOp.div_assign 0x0001E000 :=
  ⟨by decide,
    C18_noninterference 32 12 17 0xABCDEF01 0x0001E000 7 MutOp.div_assign (by decide)
      (by decide)
      (fun i h1 h2 => by
        have h : i = 12 ∨ i = 13 ∨ i = 14 ∨ i = 15 ∨ i = 16 ∨ i = 17 := by omega
        rcases h with h | h | h | h | h | h <;> subst h <;> decide)
      (fun _ => by decide) (fun h => absurd h (by decide))⟩

/-- C19 (write-back is a no-op, the last assignment wins). For every valid window and every
storage word `raw`: assigning the field its own current value leaves `raw` unchanged, and for
all operands `a`, `b` assigning `a` and then `b` writes the same word as assigning `b`. -/
theorem C19_assign_idempotent (W fb lb raw a b : Nat)
    (hfl : fb ≤ lb) (hlW : lb < W) (hraw : raw < 2 ^ W) :
    operator_assign W fb lb raw (operator_value_type W fb lb raw) = raw ∧
    operator_assign W fb lb (operator_assign W fb lb raw a) b
      = operator_assign W fb lb raw b := by
  have hiso : ∀ {r : Nat}, r < 2 ^ W → ∀ v, Isolated W fb lb r (operator_assign W fb lb r v) := by
    intro r hr v
    obtain ⟨r', hrun, hi⟩ := run_isolated hfl hlW hr MutOp.assign v
      (fun h => by rcases h with h | h <;> cases h)
    cases Option.some.inj hrun
    exact hi
  constructor
  · have h1 := hiso hraw (operator_value_type W fb lb raw)
    apply word_ext hfl hlW h1.1 hraw h1.2.1
    show operator_value_type W fb lb (_assign W fb lb raw _) = _
    rw [value_assign hfl hlW]
    exact Nat.mod_eq_of_lt (value_lt hlW raw)
  · have ha := hiso hraw a
    have hab := hiso ha.1 b
    have hb := hiso hraw b
    apply word_ext hfl hlW hab.1 hb.1
    · rw [hab.2.1, ha.2.1, hb.2.1]
    · show operator_value_type W fb lb (_assign W fb lb _ b)
        = operator_value_type W fb lb (_assign W fb lb raw b)
      rw [value_assign hfl hlW, value_assign hfl hlW]

/-- Witness of C19: window `[12, 17]` of `0xABCDEF01`, operands `100` and `9`. -/
theorem C19_assign_idempotent_witness :
    (12 ≤ 17 ∧ 17 < 32 ∧ 0xABCDEF01 < 2 ^ 32) ∧
    operator_assign 32 12 17 0xABCDEF01 (operator_value_type 32 12 17 0xABCDEF01)
      = 0xABCDEF01 ∧
    operator_assign 32 12 17 (operator_assign 32 12 17 0xABCDEF01 100) 9
      = operator_assign 32 12 17 0xABCDEF01 9 :=
  ⟨by decide,
    C19_assign_idempotent 32 12 17 0xABCDEF01 100 9 (by decide) (by decide) (by decide)⟩

/-- C20 (add and sub are mutually inverse on the whole word). For every valid window, every
storage word `raw` and every operand `rhs`: `+= rhs` followed by `-= rhs`, and `-= rhs`
followed by `+= rhs`, give back exactly `raw`; and a pre- or post-increment followed by a
pre- or post-decrement gives back exactly `raw`. -/
theorem C20_add_sub_inverse (W fb lb raw rhs : Nat)
    (hfl : fb ≤ lb) (hlW : lb < W) (hraw : raw < 2 ^ W) :
    operator_sub_assign W fb lb (operator_add_assign W fb lb raw rhs) rhs = raw ∧
    operator_add_assign W fb lb (operator_sub_assign W fb lb raw rhs) rhs = raw ∧
    (operator_pre_dec W fb lb (operator_pre_inc W fb lb raw).2).2 = raw ∧
    (operator_post_dec W fb lb (operator_pre_inc W fb lb raw).2).2 = raw ∧
    (operator_pre_dec W fb lb (operator_post_inc W fb lb raw).2).2 = raw ∧
    (operator_post_dec W fb lb (operator_post_inc W fb lb raw).2).2 = raw := by
  have hx : operator_value_type W fb lb raw < 2 ^ (lb - fb + 1) := value_lt hlW raw
  have hm : 1 < 2 ^ (lb - fb + 1) := Nat.one_lt_two_pow (by omega)
  -- two operators without divisor whose field steps cancel restore the word
  have key : ∀ (op1 op2 : MutOp) (r1 r2 : Nat),
      MutOp.run W fb lb op1 raw rhs = some r1 → MutOp.run W fb lb op2 r1 rhs = some r2 →
      (¬ (op1 = MutOp.div_assign ∨ op1 = MutOp.mod_assign)) →
      (¬ (op2 = MutOp.div_assign ∨ op2 = MutOp.mod_assign)) →
      (∀ x, x < 2 ^ (lb - fb + 1) → ∀ y, field_step (lb - fb + 1) op1 x rhs = some y →
        field_step (lb - fb + 1) op2 y rhs = some x) → r2 = raw := by
    intro op1 op2 r1 r2 h1 h2 hn1 hn2 hstep
    apply run_run_restore hfl hlW hraw op1 op2 rhs rhs h1 h2 (fun h => absurd h hn1)
      (fun h => absurd h hn2)
    have hv1 := value_run hfl hlW op1 raw rhs
    have hv2 := value_run hfl hlW op2 r1 rhs
    rw [h1] at hv1
    rw [h2, hstep _ hx _ hv1.symm] at hv2
    exact Option.some.inj hv2
  have hinc_dec : ∀ x, x < 2 ^ (lb - fb + 1) →
      ((x + 1) % 2 ^ (lb - fb + 1) + (2 ^ (lb - fb + 1) - 1)) % 2 ^ (lb - fb + 1) = x := by
    intro x hx'
    have h := add_sub_residue hx' 1
    rw [Nat.mod_eq_of_lt hm] at h
    rw [Nat.mod_add_mod]
    exact h
  have hincdec : ∀ op1 op2 : MutOp, (op1 = MutOp.pre_inc ∨ op1 = MutOp.post_inc) →
      (op2 = MutOp.pre_dec ∨ op2 = MutOp.post_dec) →
      ∀ x, x < 2 ^ (lb - fb + 1) → ∀ y, field_step (lb - fb + 1) op1 x rhs = some y →
        field_step (lb - fb + 1) op2 y rhs = some x := by
    intro op1 op2 h1 h2 x hx' y hy
    rcases h1 with h1 | h1 <;> rcases h2 with h2 | h2 <;> subst h1 <;> subst h2 <;>
      (cases Option.some.inj hy
       exact congrArg some (hinc_dec x hx'))
  refine ⟨?_, ?_, ?_, ?_, ?_, ?_⟩
  · refine key MutOp.add_assign MutOp.sub_assign _ _ rfl rfl (by decide) (by decide) ?_
    intro x hx' y hy
    cases Option.some.inj hy
    refine congrArg some ?_
    rw [Nat.mod_add_mod]
    exact add_sub_residue hx' rhs
  · refine key MutOp.sub_assign MutOp.add_assign _ _ rfl rfl (by decide) (by decide) ?_
    intro x hx' y hy
    cases Option.some.inj hy
    refine congrArg some ?_
    rw [Nat.mod_add_mod, Nat.add_right_comm]
    exact add_sub_residue hx' rhs
  · exact key MutOp.pre_inc MutOp.pre_dec _ _ rfl rfl (by decide) (by decide)
      (hincdec _ _ (Or.inl rfl) (Or.inl rfl))
  · exact key MutOp.pre_inc MutOp.post_dec _ _ rfl rfl (by decide) (by decide)
      (hincdec _ _ (Or.inl rfl) (Or.inr rfl))
  · exact key MutOp.post_inc MutOp.pre_dec _ _ rfl rfl (by decide) (by decide)
      (hincdec _ _ (Or.inr rfl) (Or.inl rfl))
  · exact key MutOp.post_inc MutOp.post_dec _ _ rfl rfl (by decide) (by decide)
      (hincdec _ _ (Or.inr rfl) (Or.inr rfl))

/-- Witness of C20: window `[12, 17]` of `0xFFFFFFFF` (field `MASK`), operand `100`: the
addition wraps and the subtraction wraps back. -/
theorem C20_add_sub_inverse_witness :
    (12 ≤ 17 ∧ 17 < 32 ∧ 0xFFFFFFFF < 2 ^ 32) ∧
    operator_sub_assign 32 12 17 (operator_add_assign 32 12 17 0xFFFFFFFF 100) 100
      = 0xFFFFFFFF ∧
    operator_add_assign 32 12 17 (operator_sub_assign 32 12 17 0xFFFFFFFF 100) 100
      = 0xFFFFFFFF ∧
    (operator_pre_dec 32 12 17 (operator_pre_inc 32 12 17 0xFFFFFFFF).2).2 = 0xFFFFFFFF ∧
    (operator_post_dec 32 12 17 (operator_pre_inc 32 12 17 0xFFFFFFFF).2).2 = 0xFFFFFFFF ∧
    (operator_pre_dec 32 12 17 (operator_post_inc 32 12 17 0xFFFFFFFF).2).2 = 0xFFFFFFFF ∧
    (operator_post_dec 32 12 17 (operator_post_inc 32 12 17 0xFFFFFFFF).2).2 = 0xFFFFFFFF :=
  ⟨by decide,
    C20_add_sub_inverse 32 12 17 0xFFFFFFFF 100 (by decide) (by decide) (by decide)⟩

end bitfield
